import Mathlib

/-!
Shallow embedding of the filesystem-introspection tools of the repository
(`src/xload_agent/tools/fs/grep.py`, `ls.py`, `tree.py`) and proofs about the
claims of the specification.

Modelling conventions:
* A filesystem is a finite tree of `Entry` values.  `Entry.file nm readable lines`
  is a regular file whose text-mode iteration yields `lines` (each line carries
  its trailing newline character, as in Python); `readable = false` means that
  `open()` raises (`PermissionError` or any other swallowed exception).
  `Entry.dir nm readable children` is a directory; `readable = false` means that
  enumerating it raises `PermissionError`.  `Entry.other nm` is a path that
  exists but is neither a regular file nor a directory (socket, device, fifo):
  `is_file()` and `is_dir()` are both false, `iterdir()` raises
  `NotADirectoryError`, and `open()` raises an `OSError`.
* Python `str` values are Lean `String`s; indexing and slicing are by code
  points, matching Python.  Machine integers are `Int` (Python ints are
  unbounded).
* The regex engine is abstracted as `Matcher : String → Option (Nat × Nat)`:
  `re.search` applied to a raw line returning the first match's `span()`.
  A literal pattern corresponds to `substrMatcher`.
* `fnmatch.fnmatch` (POSIX, where `normcase` is the identity) is implemented
  directly: `*`, `?`, `[...]` classes with ranges and `!` negation, a leading
  `]` in a class is literal, an unterminated `[` is literal.
-/

/-! ### Python-style string primitives -/

/-- Python slice `s[a:b]` for natural `a ≤ b` bounds (Python clamps to the
string length; an empty slice results when `b ≤ a`). -/
def pySlice (s : String) (a b : Nat) : String :=
  (((s.toList).drop a).take (b - a)).asString

/-- Python `s.rstrip('\n\r')`: remove all trailing newline / carriage-return
characters. -/
def pyRstripNL (s : String) : String :=
  (((s.toList).reverse.dropWhile (fun c => c == '\n' || c == '\r')).reverse).asString

/-- `Path(p).is_absolute()` on POSIX: the path string starts with `/`. -/
def pathIsAbsolute (p : String) : Bool :=
  p.toList.head? = some '/'

/-- `str(Path(d) / nm)` for an already-normalised directory path `d`. -/
def joinPath (d nm : String) : String :=
  if d.toList.getLast? = some '/' then d ++ nm else d ++ "/" ++ nm

/-- Per-character lowering (`str.lower`; ASCII fold, which is what the
listed names exercise). -/
def lowerChars (s : String) : List Char :=
  s.toList.map Char.toLower

/-- Lexicographic order on code points, i.e. Python `str <=`. -/
def charListLe : List Char → List Char → Bool
  | [], _ => true
  | _ :: _, [] => false
  | a :: as, b :: bs => if a = b then charListLe as bs else decide (a.toNat < b.toNat)

/-! ### `fnmatch` glob matching -/

/-- One token of a glob pattern. -/
inductive GTok where
  | star : GTok
  | qmark : GTok
  | lit (c : Char) : GTok
  | cls (neg : Bool) (items : List (Char × Char)) : GTok

/-- Split a character list at the first `]`, returning the part before it and
the part after it. -/
def splitAtRBrack : List Char → Option (List Char × List Char)
  | [] => none
  | c :: rest =>
    if c = ']' then some ([], rest)
    else match splitAtRBrack rest with
      | none => none
      | some (pre, post) => some (c :: pre, post)

/-- Parse the body of a `[...]` class into `(lo, hi)` ranges; a plain character
`c` is the range `(c, c)`.  `a-b` is a range; a trailing or leading `-` is
literal, mirroring `fnmatch.translate`. -/
def parseClassItems : List Char → List (Char × Char)
  | [] => []
  | a :: '-' :: b :: rest => (a, b) :: parseClassItems rest
  | a :: rest => (a, a) :: parseClassItems rest

/-- Scan a class starting just after `[`: handle `!` negation and a literal
leading `]`, find the closing `]`.  Returns `none` when the class is
unterminated (then `[` is a literal character). -/
def scanClass (s : List Char) : Option (Bool × List (Char × Char) × List Char) :=
  let (neg, s1) := match s with
    | '!' :: r => (true, r)
    | _ => (false, s)
  match s1 with
  | ']' :: r =>
    (match splitAtRBrack r with
     | none => none
     | some (pre, post) => some (neg, parseClassItems (']' :: pre), post))
  | _ =>
    (match splitAtRBrack s1 with
     | none => none
     | some (pre, post) => some (neg, parseClassItems pre, post))

/-- Fuel-indexed glob tokenizer (each step consumes at least one character, so
`length + 1` fuel always suffices). -/
def tokenizeF : Nat → List Char → List GTok
  | 0, _ => []
  | _ + 1, [] => []
  | f + 1, '*' :: r => .star :: tokenizeF f r
  | f + 1, '?' :: r => .qmark :: tokenizeF f r
  | f + 1, '[' :: r =>
    (match scanClass r with
     | none => .lit '[' :: tokenizeF f r
     | some (neg, items, rest) => .cls neg items :: tokenizeF f rest)
  | f + 1, c :: r => .lit c :: tokenizeF f r

/-- Tokenize a glob pattern. -/
def tokenizeGlob (pat : String) : List GTok :=
  tokenizeF (pat.toList.length + 1) pat.toList

/-- Does a character fall in a class? -/
def inClass (items : List (Char × Char)) (x : Char) : Bool :=
  items.any (fun it => it.1.toNat ≤ x.toNat && x.toNat ≤ it.2.toNat)

/-- Fuel-indexed glob matching (full-string match, like `fnmatch`).  Every
recursive call shrinks `tokens.length + s.length`, so fuel
`tokens.length + s.length + 1` always suffices. -/
def gmatchF : Nat → List GTok → List Char → Bool
  | 0, _, _ => false
  | _ + 1, [], s => s.isEmpty
  | f + 1, .star :: ps, s =>
    gmatchF f ps s ||
      (match s with
       | [] => false
       | _ :: cs => gmatchF f (.star :: ps) cs)
  | f + 1, .qmark :: ps, s =>
    (match s with
     | [] => false
     | _ :: cs => gmatchF f ps cs)
  | f + 1, .lit c :: ps, s =>
    (match s with
     | [] => false
     | x :: cs => x = c && gmatchF f ps cs)
  | f + 1, .cls neg items :: ps, s =>
    (match s with
     | [] => false
     | x :: cs => (neg != inClass items x) && gmatchF f ps cs)

/-- `fnmatch.fnmatch(nm, pat)` on POSIX. -/
def fnmatch (nm pat : String) : Bool :=
  let toks := tokenizeGlob pat
  gmatchF (toks.length + nm.toList.length + 1) toks nm.toList

/-- Does `nm` match at least one pattern of the list (OR semantics)? -/
def anyMatch (pats : List String) (nm : String) : Bool :=
  pats.any (fun p => fnmatch nm p)

-- sanity checks for the glob matcher (mirroring Python behaviour)
example : fnmatch ".git" ".git" = true := by decide
example : fnmatch "README.md" "*.pyc" = false := by decide
example : fnmatch "a.py" "*.py" = true := by decide
example : fnmatch "x" "?" = true := by decide
example : fnmatch "b" "[a-c]" = true := by decide
example : fnmatch "b" "[!a-c]" = false := by decide
example : fnmatch "x" "[" = false := by decide
example : fnmatch "[" "[" = true := by decide
example : fnmatch "]" "[]]" = true := by decide
example : fnmatch "node_modules" "node_modules" = true := by decide

/-! ### The filesystem model -/

/-- A filesystem entry (see the module docstring). -/
inductive Entry where
  | file (nm : String) (readable : Bool) (lines : List String) : Entry
  | dir (nm : String) (readable : Bool) (children : List Entry) : Entry
  | other (nm : String) : Entry

/-- The entry's name (`Path.name`). -/
def Entry.name : Entry → String
  | .file nm _ _ => nm
  | .dir nm _ _ => nm
  | .other nm => nm

/-- `Path.is_dir()`. -/
def Entry.isDir : Entry → Bool
  | .dir _ _ _ => true
  | _ => false

/-- `Path.is_file()` (true only for regular files). -/
def Entry.isFile : Entry → Bool
  | .file _ _ _ => true
  | _ => false

/-- Whether reading the entry succeeds (see the module docstring). -/
def Entry.readable : Entry → Bool
  | .file _ r _ => r
  | .dir _ r _ => r
  | .other _ => false

/-- Children of a directory entry (empty for non-directories). -/
def Entry.childrenOf : Entry → List Entry
  | .dir _ _ cs => cs
  | _ => []

/-! ### Sorting: `items.sort(key=lambda x: (x.is_file(), x.name.lower()))`

Python's sort is stable; a stable insertion sort over the same total preorder
produces the identical output. -/

/-- Sort key comparison for directory listings: directories (and non-files)
first, then case-insensitive name order; `a ≤ b` on the key tuples. -/
def entrySortLe (a b : Entry) : Bool :=
  if a.isFile = b.isFile then charListLe (lowerChars a.name) (lowerChars b.name)
  else b.isFile

/-- Insert `x` after every already-placed element that is `≤ x` (stability). -/
def insSorted (le : Entry → Entry → Bool) (x : Entry) : List Entry → List Entry
  | [] => [x]
  | y :: ys => if le y x then y :: insSorted le x ys else x :: y :: ys

/-- Stable insertion sort (extensionally equal to Python's stable `list.sort`
for the total preorder `entrySortLe`). -/
def sortEntries (l : List Entry) : List Entry :=
  l.foldl (fun acc x => insSorted entrySortLe x acc) []

/-! ### Error messages (identical literal templates in the three sources) -/

/-- "not an absolute path" error message (grep.py/ls.py/tree.py, identical). -/
def msgNotAbsolute (p : String) : String :=
  "错误: 路径 " ++ p ++ " 不是绝对路径。请提供绝对路径。"

/-- "path does not exist" error message (grep.py/ls.py/tree.py, identical). -/
def msgNotFound (p : String) : String :=
  "错误: 路径 " ++ p ++ " 不存在。请提供有效的路径。"

/-- "not a directory" error message (ls.py/tree.py, identical). -/
def msgNotDir (p : String) : String :=
  "错误: 路径 " ++ p ++ " 不是目录。请提供有效的目录路径。"

/-- "permission denied" error message (grep.py non-recursive branch and
ls.py, identical). -/
def msgPermission (p : String) : String :=
  "错误: 没有权限访问路径 " ++ p ++ "。"

/-- grep.py: file root rejected by the ignore / file-pattern filter. -/
def msgFiltered (p : String) : String :=
  "错误: 文件 " ++ p ++ " 被忽略模式过滤。"

/-! ### Default ignore pattern lists (literal copies from each source file) -/

/-- `DEFAULT_IGNORE_PATTERNS` of grep.py (no `*.swp`, `.DS_Store` earlier). -/
def GREP_DEFAULT_IGNORE : List String :=
  ["*.pyc", "__pycache__", ".git", ".svn", ".hg", ".DS_Store",
   "*.tmp", "*.temp", "*.log", ".idea", "*.vscode", "node_modules"]

/-- `DEFAULT_IGNORE_PATTERNS` of ls.py. -/
def LS_DEFAULT_IGNORE : List String :=
  ["*.pyc", "__pycache__", "*.swp", ".DS_Store", ".git", ".svn", ".hg",
   "*.tmp", "*.temp", "*.log", ".idea", "*.vscode", "node_modules"]

/-- `DEFAULT_IGNORE_PATTERNS` of tree.py (same literal list as ls.py). -/
def TREE_DEFAULT_IGNORE : List String :=
  ["*.pyc", "__pycache__", "*.swp", ".DS_Store", ".git", ".svn", ".hg",
   "*.tmp", "*.temp", "*.log", ".idea", "*.vscode", "node_modules"]

/-- The `should_ignore` closure: name matches some pattern of the merged
ignore list. -/
def mkIgnore (ipats : List String) : String → Bool :=
  fun nm => anyMatch ipats nm

/-- The `should_search_file` closure of grep.py: not ignored, and (if a
non-empty `file_pattern` list is given) matching one of its patterns. -/
def mkSearch (ipats fpats : List String) : String → Bool :=
  fun nm =>
    if anyMatch ipats nm then false
    else if fpats.isEmpty then true
    else anyMatch fpats nm

/-! ### `ls_tool` (ls.py) -/

/-- A listed item: directories get a trailing `/`. -/
def displayName (e : Entry) : String :=
  if e.isDir then e.name ++ "/" else e.name

/-- Result of `ls_tool`: the success dictionary or the error dictionary. -/
inductive LsResult where
  | success (pth : String) (items : List String) (count : Nat) : LsResult
  | error (msg : String) : LsResult
deriving DecidableEq

/-- `ls_tool(path, match, ignore)` (ls.py).  `target` abstracts what the real
filesystem holds at `path` (`none` = does not exist); an empty `mtch`/`ignore`
list is Python's `None`/falsy list. -/
def ls_tool (target : Option Entry) (path : String) (mtch ignore : List String) : LsResult :=
  if !(pathIsAbsolute path) then .error (msgNotAbsolute path)
  else match target with
  | none => .error (msgNotFound path)
  | some t =>
    if !t.isDir then .error (msgNotDir path)
    else if !t.readable then .error (msgPermission path)
    else
      let sorted := sortEntries t.childrenOf
      let afterMatch := if mtch.isEmpty then sorted
        else sorted.filter (fun e => anyMatch mtch e.name)
      let ignoreP := mkIgnore (ignore ++ LS_DEFAULT_IGNORE)
      let kept := afterMatch.filter (fun e => !ignoreP e.name)
      .success path (kept.map displayName) (kept.map displayName).length

/-! ### `tree_tool` (tree.py) -/

/-- One node of the returned tree: the dict with keys `name`, `type`, `path`,
optional `children`, optional `error`. -/
inductive TreeNode where
  | node (nm ty pth : String) (children : Option (List TreeNode)) (err : Option String) : TreeNode

/-- `name` field. -/
def TreeNode.name : TreeNode → String
  | .node nm _ _ _ _ => nm

/-- `type` field. -/
def TreeNode.ty : TreeNode → String
  | .node _ ty _ _ _ => ty

/-- `path` field. -/
def TreeNode.pathOf : TreeNode → String
  | .node _ _ p _ _ => p

/-- optional `children` field. -/
def TreeNode.childrenOpt : TreeNode → Option (List TreeNode)
  | .node _ _ _ cs _ => cs

/-- optional `error` field. -/
def TreeNode.errOf : TreeNode → Option String
  | .node _ _ _ _ e => e

/-- `_walk_directory(current_path, current_depth)` (tree.py), recursing on the
remaining expansion budget `rem = max_depth - current_depth` (the source
recursion carries `current_depth` upward and tests `current_depth < max_depth`;
carrying the equivalent downward-counting budget makes the definition
structurally recursive, hence executable).  Enumerate the directory at `pth`,
sorted directories-first; for each item apply the ignore filter, then the
match allow-list, then build its node, expanding a subdirectory only while
budget remains; on read failure emit the directory itself as a single error
leaf instead of raising. -/
def walkDirF (mtch : List String) (ignoreP : String → Bool) :
    Nat → String → String → Bool → List Entry → List TreeNode
  | 0, nm, pth, rdbl, children =>
    if rdbl then
      (sortEntries children).filterMap (fun e =>
        if ignoreP e.name then none
        else if !mtch.isEmpty && !anyMatch mtch e.name then none
        else
          some (.node e.name (if e.isDir then "directory" else "file")
            (joinPath pth e.name) none none))
    else [.node nm "directory" pth none (some "Permission denied")]
  | rem + 1, nm, pth, rdbl, children =>
    if rdbl then
      (sortEntries children).filterMap (fun e =>
        if ignoreP e.name then none
        else if !mtch.isEmpty && !anyMatch mtch e.name then none
        else
          let p := joinPath pth e.name
          some (.node e.name (if e.isDir then "directory" else "file") p
            (if e.isDir then
              some (walkDirF mtch ignoreP rem e.name p e.readable e.childrenOf)
             else none)
            none))
    else [.node nm "directory" pth none (some "Permission denied")]

/-- Processing of one enumerated item of `_walk_directory` (the body of its
`for item in directory_items` loop). -/
def processItemF (mtch : List String) (ignoreP : String → Bool) (rem : Nat)
    (e : Entry) (parent : String) : Option TreeNode :=
  if ignoreP e.name then none
  else if !mtch.isEmpty && !anyMatch mtch e.name then none
  else
    let p := joinPath parent e.name
    some (.node e.name (if e.isDir then "directory" else "file") p
      (match rem, e.isDir with
       | rem' + 1, true => some (walkDirF mtch ignoreP rem' e.name p e.readable e.childrenOf)
       | _, _ => none)
      none)

/-- `walkDirF` on a readable directory is the per-item processing mapped over
the sorted enumeration. -/
theorem walkDirF_readable (mtch : List String) (ignoreP : String → Bool)
    (rem : Nat) (nm pth : String) (children : List Entry) :
    walkDirF mtch ignoreP rem nm pth true children
      = (sortEntries children).filterMap (fun e => processItemF mtch ignoreP rem e pth) := by
  cases rem
  · apply List.filterMap_congr
    intro e _
    simp only [walkDirF, processItemF]
  · apply List.filterMap_congr
    intro e _
    simp only [walkDirF, processItemF]
    cases e <;> rfl

/-- `walkDirF` on an unreadable directory is the single error leaf. -/
theorem walkDirF_unreadable (mtch : List String) (ignoreP : String → Bool)
    (rem : Nat) (nm pth : String) (children : List Entry) :
    walkDirF mtch ignoreP rem nm pth false children
      = [.node nm "directory" pth none (some "Permission denied")] := by
  cases rem <;> rfl

mutual
/-- `_count_items` (tree.py), for one node: a `directory`-typed node counts as
a directory and recurses into `children` only when that field is present;
anything else counts as a file. -/
def countNode : TreeNode → Nat × Nat
  | .node _ ty _ children _ =>
    if ty = "directory" then
      match children with
      | some cs => (1 + (countNodes cs).1, (countNodes cs).2)
      | none => (1, 0)
    else (0, 1)

/-- `_count_items` over a list of nodes. -/
def countNodes : List TreeNode → Nat × Nat
  | [] => (0, 0)
  | n :: rest => ((countNode n).1 + (countNodes rest).1, (countNode n).2 + (countNodes rest).2)
end

/-- The success payload of `tree_tool`. -/
structure TreeOk where
  pth : String
  max_depth : Int
  tree : List TreeNode
  directories : Nat
  files : Nat
  total : Nat

/-- Result of `tree_tool`. -/
inductive TreeResult where
  | success (ok : TreeOk) : TreeResult
  | error (msg : String) : TreeResult

/-- `tree_tool(path, max_depth, match, ignore)` (tree.py). -/
def tree_tool (target : Option Entry) (path : String) (max_depth : Int)
    (mtch ignore : List String) : TreeResult :=
  let maxd := min (max 1 max_depth) 3
  if !(pathIsAbsolute path) then .error (msgNotAbsolute path)
  else match target with
  | none => .error (msgNotFound path)
  | some t =>
    if !t.isDir then .error (msgNotDir path)
    else
      let ignoreP := mkIgnore (ignore ++ TREE_DEFAULT_IGNORE)
      let tr := walkDirF mtch ignoreP (maxd - 1).toNat t.name path t.readable t.childrenOf
      let cnt := countNodes tr
      .success ⟨path, maxd, tr, cnt.1, cnt.2, cnt.1 + cnt.2⟩

/-- The tree of a successful `tree_tool` call. -/
def TreeResult.treeOf : TreeResult → Option (List TreeNode)
  | .success ok => some ok.tree
  | .error _ => none

/-! ### `grep_tool` (grep.py) -/

/-- Abstraction of a compiled regex: `regex.search(line)` returning the first
match's `span()` (Python guarantees `0 ≤ start ≤ end ≤ len(line)`). -/
abbrev Matcher := String → Option (Nat × Nat)

/-- The matcher of a literal pattern: first occurrence of `needle` in the
line, as `re.search` on an escaped literal would find it. -/
def substrMatcher (needle : String) : Matcher := fun line =>
  let n := needle.toList
  let l := line.toList
  match (List.range (l.length + 1)).find? (fun i => (l.drop i).take n.length == n) with
  | some i => some (i, i + n.length)
  | none => none

/-- One element of the `matches` list (the per-match dict; the nested
`context` dict is flattened into the `ctx*` fields, in source order
`prefix`/`match`/`suffix`). -/
structure SMatch where
  file : String
  line : Nat
  content : String
  match_start : Nat
  match_end : Nat
  ctxBefore : String
  ctxMatch : String
  ctxAfter : String
deriving DecidableEq

/-- The `stats` dict of a grep result. -/
structure GrepStats where
  files_searched : Nat
  files_matched : Nat
  lines_matched : Nat
  results_truncated : Bool
deriving DecidableEq

/-- The mutable state of a `grep_tool` call (`stats` and `matches`), plus two
ghost instrumentation counters that do not influence any behaviour:
`gOpens` counts attempted `open()` calls and `gScanned` counts lines the
regex was run on.  They let theorems speak about "work performed".
(`matchList` models the `matches` list; `matches` is a Lean keyword.) -/
structure GrepSt where
  files_searched : Nat
  files_matched : Nat
  lines_matched : Nat
  truncated : Bool
  matchList : List SMatch
  gOpens : Nat
  gScanned : Nat
deriving DecidableEq

/-- Initial state of a call. -/
def initGrepSt : GrepSt := ⟨0, 0, 0, false, [], 0, 0⟩

/-- The `for line_num, line in enumerate(f, 1)` loop of `search_file`
(grep.py): `ln` is the current 1-based line number, `fm` the `file_matched`
flag. -/
def scanLines (m : Matcher) (maxr : Int) (fpath : String) :
    List String → Nat → Bool → GrepSt → GrepSt
  | [], _, _, st => st
  | line :: rest, ln, fm, st =>
    if (st.matchList.length : Int) ≥ maxr then
      { st with truncated := true }
    else
      let st1 := { st with gScanned := st.gScanned + 1 }
      match m line with
      | none => scanLines m maxr fpath rest (ln + 1) fm st1
      | some (ms, me) =>
        let st2 := if fm then st1 else { st1 with files_matched := st1.files_matched + 1 }
        let st3 := { st2 with lines_matched := st2.lines_matched + 1 }
        let content := pyRstripNL line
        let cend := min content.length (me + 10)
        let mr : SMatch := ⟨fpath, ln, content, ms, me,
          pySlice content (ms - 10) ms, pySlice content ms me, pySlice content me cend⟩
        scanLines m maxr fpath rest (ln + 1) true { st3 with matchList := st3.matchList ++ [mr] }

/-- `search_file(file_path)` (grep.py): bump `files_searched`, stop at the
result cap before opening, otherwise attempt the open; a failed open
(`PermissionError` or any other exception, and `Entry.other`) is swallowed. -/
def searchEntry (m : Matcher) (maxr : Int) (fpath : String) (e : Entry) (st : GrepSt) : GrepSt :=
  let st1 := { st with files_searched := st.files_searched + 1 }
  if (st1.matchList.length : Int) ≥ maxr then { st1 with truncated := true }
  else
    match e with
    | .file _ true lines => scanLines m maxr fpath lines 1 false { st1 with gOpens := st1.gOpens + 1 }
    | _ => { st1 with gOpens := st1.gOpens + 1 }

/-- One filtered pass over a directory enumeration with the per-item
truncation break — the common shape of the `for file in files` loop of the
recursive walk and the `for item in _path.iterdir()` loop of the
non-recursive branch; `cand` is the per-item guard in front of
`search_file`. -/
def grepPass (m : Matcher) (maxr : Int) (cand : Entry → Bool) (parent : String) :
    List Entry → GrepSt → GrepSt
  | [], st => st
  | e :: rest, st =>
    let st1 := if cand e then searchEntry m maxr (joinPath parent e.name) e st else st
    if st1.truncated then st1 else grepPass m maxr cand parent rest st1

/-- Candidate guard of the recursive walk's files pass:
`for file in files: ... if should_search_file(file_path)` (`files` holds the
non-directories). -/
def candFiles (sSearch : String → Bool) (e : Entry) : Bool :=
  !e.isDir && sSearch e.name

/-- Candidate guard of the non-recursive branch:
`if item.is_file() and should_search_file(item)`. -/
def candNonRec (sSearch : String → Bool) (e : Entry) : Bool :=
  e.isFile && sSearch e.name

/-- The `for file in files` loop of the recursive walk. -/
def grepFilesOf (m : Matcher) (maxr : Int) (sSearch : String → Bool) (parent : String)
    (l : List Entry) (st : GrepSt) : GrepSt :=
  grepPass m maxr (candFiles sSearch) parent l st

mutual
/-- `Path.walk()` consumption for one directory (grep.py recursive branch):
an unreadable directory yields nothing (`on_error=None` swallows); otherwise
process this directory's files, then (unless truncated) its subdirectories. -/
def grepDirVisit (m : Matcher) (maxr : Int) (ignoreP sSearch : String → Bool) :
    Entry → String → GrepSt → GrepSt
  | .dir _ true children, pth, st =>
    let st1 := grepFilesOf m maxr sSearch pth children st
    if st1.truncated then st1 else grepSubdirs m maxr ignoreP sSearch children pth st1
  | _, _, st => st

/-- Depth-first descent into the non-pruned subdirectories
(`dirs[:] = [d for d in dirs if not should_ignore(...)]`), with the
truncation break between subtrees. -/
def grepSubdirs (m : Matcher) (maxr : Int) (ignoreP sSearch : String → Bool) :
    List Entry → String → GrepSt → GrepSt
  | [], _, st => st
  | e :: rest, parent, st =>
    if e.isDir && !ignoreP e.name then
      let st1 := grepDirVisit m maxr ignoreP sSearch e (joinPath parent e.name) st
      if st1.truncated then st1 else grepSubdirs m maxr ignoreP sSearch rest parent st1
    else grepSubdirs m maxr ignoreP sSearch rest parent st
end

/-- The non-recursive branch: `for item in _path.iterdir()`, searching only
regular files, with the per-item truncation break. -/
def grepNonRec (m : Matcher) (maxr : Int) (sSearch : String → Bool) (parent : String)
    (l : List Entry) (st : GrepSt) : GrepSt :=
  grepPass m maxr (candNonRec sSearch) parent l st

/-- Result of `grep_tool`: the success dict, the error dict, or an uncaught
exception escaping the function. -/
inductive GrepResult where
  | success (ms : List SMatch) (stats : GrepStats) : GrepResult
  | error (msg : String) : GrepResult
  | raised (exc : String) : GrepResult
deriving DecidableEq

/-- `re.compile` failure message (the source interpolates the pattern and the
`re.error` text; the model abstracts the compiled regex, so the message is
kept abstract too — no claim depends on it). -/
def msgBadPattern : String := "错误: 无效的正则表达式"

/-- Build the success dict from the final state. -/
def mkGrepSuccess (st : GrepSt) : GrepResult :=
  .success st.matchList ⟨st.files_searched, st.files_matched, st.lines_matched, st.truncated⟩

/-- `grep_tool(pattern, path, recursive, file_pattern, ignore, case_sensitive,
max_results)` (grep.py).  `rx` is the outcome of `re.compile` (`none` =
`re.error`; case sensitivity is part of the abstracted matcher); `target`
abstracts the filesystem at `path`.  Returns the result together with the
final internal state when a search actually ran. -/
def grepRun (rx : Option Matcher) (target : Option Entry) (path : String)
    (recursive : Bool) (fpats ignore : List String) (maxr : Int) :
    GrepResult × Option GrepSt :=
  if !(pathIsAbsolute path) then (.error (msgNotAbsolute path), none)
  else match target with
  | none => (.error (msgNotFound path), none)
  | some t =>
    match rx with
    | none => (.error msgBadPattern, none)
    | some m =>
      let ipats := ignore ++ GREP_DEFAULT_IGNORE
      let sSearch := mkSearch ipats fpats
      let ignoreP := mkIgnore ipats
      match t with
      | .file nm rd lns =>
        if sSearch nm then
          let st := searchEntry m maxr path (.file nm rd lns) initGrepSt
          (mkGrepSuccess st, some st)
        else (.error (msgFiltered path), none)
      | .dir nm rd children =>
        if recursive then
          let st := grepDirVisit m maxr ignoreP sSearch (.dir nm rd children) path initGrepSt
          (mkGrepSuccess st, some st)
        else if rd then
          let st := grepNonRec m maxr sSearch path children initGrepSt
          (mkGrepSuccess st, some st)
        else (.error (msgPermission path), none)
      | .other _ =>
        if recursive then (mkGrepSuccess initGrepSt, some initGrepSt)
        else (.raised "NotADirectoryError", none)

/-- The dictionary (or uncaught exception) `grep_tool` produces. -/
def grep_tool (rx : Option Matcher) (target : Option Entry) (path : String)
    (recursive : Bool) (fpats ignore : List String) (maxr : Int) : GrepResult :=
  (grepRun rx target path recursive fpats ignore maxr).1

/-- The final internal state of a `grep_tool` call whose search ran. -/
def grepRunSt (rx : Option Matcher) (target : Option Entry) (path : String)
    (recursive : Bool) (fpats ignore : List String) (maxr : Int) : Option GrepSt :=
  (grepRun rx target path recursive fpats ignore maxr).2

/-! ### Generic helpers over returned trees -/

mutual
/-- All nodes of a subtree rooted at one node (the node itself first). -/
def flattenNodeL : TreeNode → List TreeNode
  | .node nm ty p cs e =>
    .node nm ty p cs e :: (match cs with
      | some l => flattenNodesL l
      | none => [])

/-- All nodes of a forest. -/
def flattenNodesL : List TreeNode → List TreeNode
  | [] => []
  | n :: rest => flattenNodeL n ++ flattenNodesL rest
end

/-! ### Claim C4 — path validation errors -/

/-- C4: for every non-absolute input path each of `grep_tool`, `ls_tool` and
`tree_tool` returns the "not absolute" error result, and for every absolute
path that does not exist each returns the "not found" error result. -/
theorem c4_path_validation (rx : Option Matcher) (target : Option Entry) (p : String)
    (recursive : Bool) (fpats mtch ig : List String) (maxr d : Int) :
    (pathIsAbsolute p = false →
      grep_tool rx target p recursive fpats ig maxr = .error (msgNotAbsolute p) ∧
      ls_tool target p mtch ig = .error (msgNotAbsolute p) ∧
      tree_tool target p d mtch ig = .error (msgNotAbsolute p)) ∧
    (pathIsAbsolute p = true →
      grep_tool rx none p recursive fpats ig maxr = .error (msgNotFound p) ∧
      ls_tool none p mtch ig = .error (msgNotFound p) ∧
      tree_tool none p d mtch ig = .error (msgNotFound p)) := by
  constructor
  · intro h
    refine ⟨?_, ?_, ?_⟩ <;> simp [grep_tool, grepRun, ls_tool, tree_tool, h]
  · intro h
    refine ⟨?_, ?_, ?_⟩ <;> simp [grep_tool, grepRun, ls_tool, tree_tool, h]

/-- Witness for C4 at concrete inputs. -/
theorem c4_path_validation_witness :
    (pathIsAbsolute "relative/path" = false ∧
      grep_tool none none "relative/path" true [] [] 1000
        = .error (msgNotAbsolute "relative/path")) ∧
    (pathIsAbsolute "/missing" = true ∧
      ls_tool none "/missing" [] [] = .error (msgNotFound "/missing")) :=
  ⟨⟨by decide, ((c4_path_validation none none "relative/path" true [] [] [] 1000 3).1 (by decide)).1⟩,
   ⟨by decide, ((c4_path_validation none none "/missing" true [] [] [] 1000 3).2 (by decide)).2.1⟩⟩

/-! ### Claim C3 — no exception ever escapes (refuted by the code) -/

/-- C3 fails on the code: on an absolute, existing path that is neither a
regular file nor a directory (e.g. a unix socket), `grep_tool` with
`recursive=False` reaches `_path.iterdir()`, which raises
`NotADirectoryError`; the surrounding `try` only catches `PermissionError`,
so the exception escapes to the caller instead of an error dict.  (`ls_tool`
and `tree_tool` reject such paths with their "not a directory" error first,
and `grep_tool` with `recursive=True` feeds the path to `Path.walk()`, which
swallows the error.) -/
theorem c3_nonrecursive_special_file_raises :
    grep_tool (some (substrMatcher "x")) (some (.other "sock")) "/sock" false [] [] 1000
      = .raised "NotADirectoryError" := by rfl

/-! ### Claim C8 — built-in ignore defaults are always unioned in -/

/-- Adding a pattern already present in the built-in deny set to the caller's
ignore list leaves the merged `should_ignore` closure unchanged. -/
theorem mkIgnore_cons_of_mem (p : String) (ig dflt : List String) (hp : p ∈ dflt) :
    mkIgnore ((p :: ig) ++ dflt) = mkIgnore (ig ++ dflt) := by
  funext nm
  simp only [mkIgnore, anyMatch, List.cons_append, List.any_cons]
  cases h : fnmatch nm p
  · simp
  · simp only [Bool.true_or]
    exact (List.any_eq_true.mpr ⟨p, List.mem_append_right ig hp, h⟩).symm

/-- The same for the `should_search_file` closure of grep.py. -/
theorem mkSearch_cons_of_mem (p : String) (ig dflt fpats : List String) (hp : p ∈ dflt) :
    mkSearch ((p :: ig) ++ dflt) fpats = mkSearch (ig ++ dflt) fpats := by
  funext nm
  simp only [mkSearch]
  have h := congrFun (mkIgnore_cons_of_mem p ig dflt hp) nm
  simp only [mkIgnore] at h
  rw [h]

/-- C8: the built-in default ignore set is always unioned with the
caller-supplied ignore list and cannot be disabled — adding any default
pattern to the caller list never changes the result of `grep_tool`,
`ls_tool` or `tree_tool`; and concretely, `ls_tool` on a directory holding
exactly `.git` (a directory) and `README.md`, with no caller ignore list,
returns `["README.md"]`. -/
theorem c8_default_ignore_union (pg pl pt : String)
    (hg : pg ∈ GREP_DEFAULT_IGNORE) (hl : pl ∈ LS_DEFAULT_IGNORE)
    (ht : pt ∈ TREE_DEFAULT_IGNORE)
    (rx : Option Matcher) (target : Option Entry) (p : String) (recursive : Bool)
    (fpats mtch ig : List String) (maxr d : Int) :
    (grep_tool rx target p recursive fpats (pg :: ig) maxr
      = grep_tool rx target p recursive fpats ig maxr) ∧
    (ls_tool target p mtch (pl :: ig) = ls_tool target p mtch ig) ∧
    (tree_tool target p d mtch (pt :: ig) = tree_tool target p d mtch ig) ∧
    ls_tool (some (.dir "repo" true [.dir ".git" true [], .file "README.md" true []]))
      "/repo" [] [] = .success "/repo" ["README.md"] 1 := by
  refine ⟨?_, ?_, ?_, by decide⟩
  · simp only [grep_tool, grepRun,
      mkIgnore_cons_of_mem pg ig GREP_DEFAULT_IGNORE hg,
      mkSearch_cons_of_mem pg ig GREP_DEFAULT_IGNORE fpats hg]
  · simp only [ls_tool, mkIgnore_cons_of_mem pl ig LS_DEFAULT_IGNORE hl]
  · simp only [tree_tool, mkIgnore_cons_of_mem pt ig TREE_DEFAULT_IGNORE ht]

/-- Witness for C8 at concrete inputs. -/
theorem c8_default_ignore_union_witness :
    (".git" ∈ GREP_DEFAULT_IGNORE ∧ "*.swp" ∈ LS_DEFAULT_IGNORE ∧
      "node_modules" ∈ TREE_DEFAULT_IGNORE) ∧
    (ls_tool (some (.dir "d" true [.file "a.swp" true []])) "/d" [] ["*.swp"]
      = ls_tool (some (.dir "d" true [.file "a.swp" true []])) "/d" [] []) ∧
    ls_tool (some (.dir "repo" true [.dir ".git" true [], .file "README.md" true []]))
      "/repo" [] [] = .success "/repo" ["README.md"] 1 :=
  ⟨⟨by decide, by decide, by decide⟩,
   (c8_default_ignore_union ".git" "*.swp" "node_modules" (by decide) (by decide) (by decide)
      none (some (.dir "d" true [.file "a.swp" true []])) "/d" true [] [] [] 1000 3).2.1,
   (c8_default_ignore_union ".git" "*.swp" "node_modules" (by decide) (by decide) (by decide)
      none none "/x" true [] [] [] 1000 3).2.2.2⟩

/-! ### Claim C7 — the match allow-list excludes whole subtrees -/

/-- An enumerated item matching none of a non-empty allow-list is dropped
without being processed at all (tree.py `continue`). -/
theorem processItemF_none_of_no_match (mtch : List String) (ignoreP : String → Bool)
    (rem : Nat) (e : Entry) (parent : String)
    (hne : mtch ≠ []) (hno : anyMatch mtch e.name = false) :
    processItemF mtch ignoreP rem e parent = none := by
  have hemp : mtch.isEmpty = false := by
    cases mtch with
    | nil => exact absurd rfl hne
    | cons a l => rfl
  simp only [processItemF, hemp, hno]
  cases h : ignoreP e.name <;> simp [h]

/-- C7: with a non-empty match allow-list, an enumerated entry whose name
matches none of the patterns is excluded from the result together with its
entire subtree: every directory enumeration (`walkDirF`, first conjunct, so
at any depth) and in particular a whole `tree_tool` call (second conjunct)
computes exactly the result it would compute if the entry were absent from
the directory — the walker does not descend into it looking for matching
descendants. -/
theorem c7_match_allowlist_prunes_subtrees
    (mtch ig : List String) (D : Entry) (before after : List Entry)
    (hne : mtch ≠ []) (hno : anyMatch mtch D.name = false) :
    (∀ (ignoreP : String → Bool) (rem : Nat) (nm pth : String) (cs : List Entry),
      sortEntries cs = before ++ D :: after →
      walkDirF mtch ignoreP rem nm pth true cs
        = (before ++ after).filterMap (fun e => processItemF mtch ignoreP rem e pth)) ∧
    (∀ (rn p : String) (cs : List Entry) (d : Int),
      pathIsAbsolute p = true →
      sortEntries cs = before ++ D :: after →
      (tree_tool (some (.dir rn true cs)) p d mtch ig).treeOf
        = some ((before ++ after).filterMap
            (fun e => processItemF mtch (mkIgnore (ig ++ TREE_DEFAULT_IGNORE))
              ((min (max 1 d) 3 - 1).toNat) e p))) := by
  have key : ∀ (ignoreP : String → Bool) (rem : Nat) (nm pth : String) (cs : List Entry),
      sortEntries cs = before ++ D :: after →
      walkDirF mtch ignoreP rem nm pth true cs
        = (before ++ after).filterMap (fun e => processItemF mtch ignoreP rem e pth) := by
    intro ignoreP rem nm pth cs hsort
    rw [walkDirF_readable, hsort, List.filterMap_append, List.filterMap_append]
    congr 1
    rw [List.filterMap_cons, processItemF_none_of_no_match mtch ignoreP rem D pth hne hno]
  refine ⟨key, ?_⟩
  intro rn p cs d habs hsort
  simp only [tree_tool, habs, Bool.not_true, Bool.false_eq_true, if_false, Entry.isDir,
    Entry.name, Entry.readable, Entry.childrenOf, TreeResult.treeOf]
  rw [key (mkIgnore (ig ++ TREE_DEFAULT_IGNORE)) ((min (max 1 d) 3 - 1).toNat) rn p cs hsort]

/-- Witness for C7: a non-matching directory `src` containing a file `a.py`
whose name would match is excluded wholesale. -/
theorem c7_match_allowlist_prunes_subtrees_witness :
    ((["*.py"] : List String) ≠ [] ∧
      anyMatch ["*.py"] (Entry.dir "src" true [.file "a.py" true []]).name = false ∧
      pathIsAbsolute "/r" = true ∧
      sortEntries [Entry.dir "src" true [.file "a.py" true []], Entry.file "top.py" true []]
        = [] ++ Entry.dir "src" true [.file "a.py" true []] :: [Entry.file "top.py" true []]) ∧
    (tree_tool (some (.dir "r" true
        [.dir "src" true [.file "a.py" true []], .file "top.py" true []]))
        "/r" 3 ["*.py"] []).treeOf
      = some (([] ++ [Entry.file "top.py" true []]).filterMap
          (fun e => processItemF ["*.py"] (mkIgnore ([] ++ TREE_DEFAULT_IGNORE))
            ((min (max 1 (3 : Int)) 3 - 1).toNat) e "/r")) :=
  ⟨⟨by decide, by decide, by decide, rfl⟩,
   (c7_match_allowlist_prunes_subtrees ["*.py"] []
      (Entry.dir "src" true [.file "a.py" true []])
      [] [Entry.file "top.py" true []] (by decide) (by decide)).2
      "r" "/r" [Entry.dir "src" true [.file "a.py" true []], Entry.file "top.py" true []]
      3 (by decide) rfl⟩

/-! ### Claim C2 — unreadable directories in the tree walk -/

/-- Membership is preserved by stable insertion. -/
theorem mem_insSorted (le : Entry → Entry → Bool) (x a : Entry) (l : List Entry) :
    a ∈ insSorted le x l ↔ a = x ∨ a ∈ l := by
  induction l with
  | nil => simp [insSorted]
  | cons y ys ih =>
    simp only [insSorted]
    cases le y x
    · simp
    · simp [ih]
      tauto

/-- Sorting a directory enumeration does not change its members. -/
theorem mem_sortEntries (a : Entry) (l : List Entry) :
    a ∈ sortEntries l ↔ a ∈ l := by
  have key : ∀ (l acc : List Entry),
      (a ∈ l.foldl (fun acc x => insSorted entrySortLe x acc) acc ↔ a ∈ acc ∨ a ∈ l) := by
    intro l
    induction l with
    | nil => simp
    | cons x xs ih =>
      intro acc
      simp only [List.foldl_cons]
      rw [ih (insSorted entrySortLe x acc)]
      rw [mem_insSorted]
      simp
      tauto
  rw [sortEntries, key l []]
  simp

/-- C2 as stated is false on the code: for a non-root unreadable directory the
walker still assigns it a `children` field (holding a duplicated error leaf)
instead of emitting the directory itself as a leaf — some node carrying the
directory's path has a `children` field. -/
theorem c2_error_leaf_counterexample :
    ¬ (∀ ns, (tree_tool (some (.dir "r" true [.dir "sub" false []])) "/r" 3 [] []).treeOf
          = some ns →
        ∀ n ∈ flattenNodesL ns, n.pathOf = "/r/sub" →
          n.childrenOpt = none ∧ n.errOf.isSome) := by
  intro h
  have hm : (TreeNode.node "sub" "directory" "/r/sub"
      (some [TreeNode.node "sub" "directory" "/r/sub" none (some "Permission denied")]) none)
      ∈ flattenNodesL [TreeNode.node "sub" "directory" "/r/sub"
        (some [TreeNode.node "sub" "directory" "/r/sub" none (some "Permission denied")]) none] :=
    List.Mem.head _
  have := (h _ rfl _ hm rfl).1
  simp [TreeNode.childrenOpt] at this

/-- C2 amended: when the walker enumerates a readable directory containing an
unreadable subdirectory `dn` that survives the ignore and match filters, and
depth remains (`1 < clamp(d,1,3)`), the call still succeeds, the tree contains
a leaf node for `dn` (kind directory, no children field) carrying the error
string — but nested as the sole child of `dn`'s own node rather than in its
place — and every other enumerated sibling is processed into the result
exactly as usual (traversal continues, nothing raises). -/
theorem c2_unreadable_dir_error_leaf
    (rn p dn : String) (cs dcs : List Entry) (d : Int) (mtch ig : List String)
    (habs : pathIsAbsolute p = true)
    (hmem : Entry.dir dn false dcs ∈ cs)
    (hig : mkIgnore (ig ++ TREE_DEFAULT_IGNORE) dn = false)
    (hmtch : mtch = [] ∨ anyMatch mtch dn = true)
    (hdepth : 1 < min (max 1 d) 3) :
    ∃ ok, tree_tool (some (.dir rn true cs)) p d mtch ig = .success ok ∧
      TreeNode.node dn "directory" (joinPath p dn)
        (some [TreeNode.node dn "directory" (joinPath p dn) none (some "Permission denied")])
        none ∈ ok.tree ∧
      (∀ e ∈ cs, ∀ n,
        processItemF mtch (mkIgnore (ig ++ TREE_DEFAULT_IGNORE))
            ((min (max 1 d) 3 - 1).toNat) e p = some n →
        n ∈ ok.tree) := by
  obtain ⟨rem', hrem⟩ : ∃ rem', (min (max 1 d) 3 - 1).toNat = rem' + 1 := by
    refine ⟨(min (max 1 d) 3 - 1).toNat - 1, ?_⟩
    omega
  have hproc : processItemF mtch (mkIgnore (ig ++ TREE_DEFAULT_IGNORE))
      ((min (max 1 d) 3 - 1).toNat) (Entry.dir dn false dcs) p
      = some (TreeNode.node dn "directory" (joinPath p dn)
          (some [TreeNode.node dn "directory" (joinPath p dn) none (some "Permission denied")])
          none) := by
    rw [hrem]
    simp only [processItemF, Entry.name, hig, Entry.isDir, Entry.readable, Entry.childrenOf]
    rcases hmtch with hm | hm
    · subst hm
      simp [walkDirF_unreadable]
    · have hemp : mtch.isEmpty = false ∨ mtch.isEmpty = true := by
        cases mtch.isEmpty <;> simp
      simp [hm, walkDirF_unreadable]
  simp only [tree_tool, habs, Bool.not_true, Bool.false_eq_true, if_false, Entry.isDir,
    Entry.name, Entry.readable, Entry.childrenOf]
  refine ⟨_, rfl, ?_, ?_⟩
  · rw [walkDirF_readable]
    exact List.mem_filterMap.mpr ⟨Entry.dir dn false dcs, (mem_sortEntries _ _).mpr hmem, hproc⟩
  · intro e he n hn
    rw [walkDirF_readable]
    exact List.mem_filterMap.mpr ⟨e, (mem_sortEntries _ _).mpr he, hn⟩

/-- Witness for the amended C2 at a concrete input. -/
theorem c2_unreadable_dir_error_leaf_witness :
    (pathIsAbsolute "/r" = true ∧
      Entry.dir "sub" false [] ∈ [Entry.dir "sub" false [], Entry.file "ok.txt" true ["hi\n"]] ∧
      mkIgnore ([] ++ TREE_DEFAULT_IGNORE) "sub" = false ∧
      (([] : List String) = [] ∨ anyMatch [] "sub" = true) ∧
      (1 : Int) < min (max 1 3) 3) ∧
    (∃ ok, tree_tool (some (.dir "r" true
        [Entry.dir "sub" false [], Entry.file "ok.txt" true ["hi\n"]])) "/r" 3 [] []
        = .success ok ∧
      TreeNode.node "sub" "directory" (joinPath "/r" "sub")
        (some [TreeNode.node "sub" "directory" (joinPath "/r" "sub") none
          (some "Permission denied")]) none ∈ ok.tree ∧
      (∀ e ∈ [Entry.dir "sub" false [], Entry.file "ok.txt" true ["hi\n"]], ∀ n,
        processItemF [] (mkIgnore ([] ++ TREE_DEFAULT_IGNORE))
            ((min (max 1 (3 : Int)) 3 - 1).toNat) e "/r" = some n →
        n ∈ ok.tree)) :=
  ⟨⟨by decide, List.Mem.head _, by decide, Or.inl rfl, by decide⟩,
   c2_unreadable_dir_error_leaf "r" "/r" "sub"
     [Entry.dir "sub" false [], Entry.file "ok.txt" true ["hi\n"]] [] 3 [] []
     (by decide) (List.Mem.head _) (by decide) (Or.inl rfl) (by decide)⟩

/-! ### Claim C6 — effective depth clamp and leaves at the ceiling -/

/-- The `children` list of a node, or `[]` when the field is absent. -/
def childrenOrNil (n : TreeNode) : List TreeNode :=
  match n.childrenOpt with
  | some cs => cs
  | none => []

/-- The nodes sitting at (1-based) depth `j` of a returned forest: depth 1 is
the forest itself, depth `j+1` collects depth-`j` nodes of each `children`
list. -/
def nodesAtLevel : Nat → List TreeNode → List TreeNode
  | 0, _ => []
  | 1, ns => ns
  | j + 2, ns => ns.flatMap (fun n => nodesAtLevel (j + 1) (childrenOrNil n))

/-- There are no nodes at any depth of the empty forest. -/
theorem nodesAtLevel_nil (j : Nat) : nodesAtLevel j [] = [] := by
  match j with
  | 0 => rfl
  | 1 => rfl
  | j + 2 => rfl

/-- Every node produced by the walker at a depth exceeding its expansion
budget `rem` is a leaf (no `children` field). -/
theorem walkDirF_level_leaf (mtch : List String) (ignoreP : String → Bool) :
    ∀ (j rem : Nat) (nm pth : String) (rdbl : Bool) (cs : List Entry),
      rem + 1 ≤ j →
      ∀ n ∈ nodesAtLevel j (walkDirF mtch ignoreP rem nm pth rdbl cs),
        n.childrenOpt = none
  | 0, rem, nm, pth, rdbl, cs, hle, n, hn => by
    simp [nodesAtLevel] at hn
  | 1, rem, nm, pth, rdbl, cs, hle, n, hn => by
    have hrem : rem = 0 := by omega
    subst hrem
    simp only [nodesAtLevel] at hn
    cases rdbl with
    | false =>
      rw [walkDirF_unreadable] at hn
      have h := List.mem_singleton.mp hn
      subst h
      rfl
    | true =>
      rw [walkDirF_readable] at hn
      obtain ⟨e, _, he⟩ := List.mem_filterMap.mp hn
      simp only [processItemF] at he
      split at he
      · exact absurd he (by simp)
      · split at he
        · exact absurd he (by simp)
        · cases he
          rfl
  | j + 2, rem, nm, pth, rdbl, cs, hle, n, hn => by
    simp only [nodesAtLevel] at hn
    obtain ⟨x, hx, hnx⟩ := List.mem_flatMap.mp hn
    cases rdbl with
    | false =>
      rw [walkDirF_unreadable] at hx
      have h := List.mem_singleton.mp hx
      subst h
      simp [childrenOrNil, TreeNode.childrenOpt, nodesAtLevel_nil] at hnx
    | true =>
      rw [walkDirF_readable] at hx
      obtain ⟨e, _, he⟩ := List.mem_filterMap.mp hx
      simp only [processItemF] at he
      split at he
      · exact absurd he (by simp)
      · split at he
        · exact absurd he (by simp)
        · cases he
          revert hnx
          match hrem : rem, hdir : e.isDir with
          | 0, _ =>
            intro hnx
            simp [childrenOrNil, TreeNode.childrenOpt, nodesAtLevel_nil] at hnx
          | rem0 + 1, false =>
            intro hnx
            simp [childrenOrNil, TreeNode.childrenOpt, nodesAtLevel_nil] at hnx
          | rem0 + 1, true =>
            intro hnx
            simp only [childrenOrNil, TreeNode.childrenOpt] at hnx
            exact walkDirF_level_leaf mtch ignoreP (j + 1) rem0 _ _ _ _ (by omega) n hnx

/-- C6: for every requested depth `d`, `tree_tool` reports the effective
depth `clamp(d, 1, 3)` and, with the depth counter starting at 1 at the
root's children, every node at the effective maximum depth is returned
without a `children` field (a leaf), even when the directory behind it is
non-empty. -/
theorem c6_depth_clamp (target : Option Entry) (p : String) (d : Int)
    (mtch ig : List String) (ok : TreeOk)
    (h : tree_tool target p d mtch ig = .success ok) :
    ok.max_depth = min (max 1 d) 3 ∧
    ∀ n ∈ nodesAtLevel (min (max 1 d) 3).toNat ok.tree, n.childrenOpt = none := by
  rcases target with _ | t
  · simp only [tree_tool] at h
    split at h <;> simp at h
  · rcases t with ⟨nm, rd, lns⟩ | ⟨nm, rd, cs⟩ | nm
    · simp only [tree_tool, Entry.isDir] at h
      split at h <;> simp at h
    · simp only [tree_tool, Entry.isDir, Entry.name, Entry.readable, Entry.childrenOf,
        Bool.not_true] at h
      split at h
      · simp at h
      · cases h
        refine ⟨rfl, ?_⟩
        intro n hn
        exact walkDirF_level_leaf mtch (mkIgnore (ig ++ TREE_DEFAULT_IGNORE))
          (min (max 1 d) 3).toNat ((min (max 1 d) 3 - 1)).toNat nm p rd cs
          (by omega) n hn
    · simp only [tree_tool, Entry.isDir] at h
      split at h <;> simp at h

/-- Witness for C6 at a concrete input: requested depth 2, a directory `b`
that is non-empty on disk sits at depth 2 and comes back as a leaf. -/
theorem c6_depth_clamp_witness :
    tree_tool (some (.dir "r" true [.dir "a" true [.dir "b" true [.file "f" true []]]]))
        "/r" 2 [] []
      = .success ⟨"/r", 2, [TreeNode.node "a" "directory" "/r/a"
          (some [TreeNode.node "b" "directory" "/r/a/b" none none]) none], 2, 0, 2⟩ ∧
    (min (max 1 (2 : Int)) 3 = 2) ∧
    ∀ n ∈ nodesAtLevel (min (max 1 (2 : Int)) 3).toNat
        [TreeNode.node "a" "directory" "/r/a"
          (some [TreeNode.node "b" "directory" "/r/a/b" none none]) none],
      n.childrenOpt = none :=
  ⟨rfl, by decide,
   (c6_depth_clamp
      (some (.dir "r" true [.dir "a" true [.dir "b" true [.file "f" true []]]]))
      "/r" 2 [] []
      ⟨"/r", 2, [TreeNode.node "a" "directory" "/r/a"
        (some [TreeNode.node "b" "directory" "/r/a/b" none none]) none], 2, 0, 2⟩ rfl).2⟩

/-! ### Reference counts for a grep traversal

`GrepTotals` counts, for the candidate files of a traversal (the files that
pass `should_search_file`, in non-pruned directories), how much work and how
many hits a run that is never truncated performs: number of candidate files
(= attempted opens), lines scanned, files with at least one matching line,
and matching lines. -/

structure GrepTotals where
  files : Nat
  scanned : Nat
  fmatched : Nat
  lmatched : Nat
deriving DecidableEq

instance : Add GrepTotals :=
  ⟨fun a b => ⟨a.files + b.files, a.scanned + b.scanned,
    a.fmatched + b.fmatched, a.lmatched + b.lmatched⟩⟩

/-- The zero count. -/
def GrepTotals.zero : GrepTotals := ⟨0, 0, 0, 0⟩

@[simp] theorem GrepTotals.add_files (a b : GrepTotals) : (a + b).files = a.files + b.files := rfl
@[simp] theorem GrepTotals.add_scanned (a b : GrepTotals) : (a + b).scanned = a.scanned + b.scanned := rfl
@[simp] theorem GrepTotals.add_fmatched (a b : GrepTotals) : (a + b).fmatched = a.fmatched + b.fmatched := rfl
@[simp] theorem GrepTotals.add_lmatched (a b : GrepTotals) : (a + b).lmatched = a.lmatched + b.lmatched := rfl
@[simp] theorem GrepTotals.zero_files : GrepTotals.zero.files = 0 := rfl
@[simp] theorem GrepTotals.zero_scanned : GrepTotals.zero.scanned = 0 := rfl
@[simp] theorem GrepTotals.zero_fmatched : GrepTotals.zero.fmatched = 0 := rfl
@[simp] theorem GrepTotals.zero_lmatched : GrepTotals.zero.lmatched = 0 := rfl

/-- Counts contributed by one candidate file: it is attempted; if readable,
all its lines are scanned, a matching line marks the file matched, and each
matching line counts. -/
def fileTotals (m : Matcher) : Entry → GrepTotals
  | .file _ true lines =>
    ⟨1, lines.length,
      if lines.any (fun l => (m l).isSome) then 1 else 0,
      lines.countP (fun l => (m l).isSome)⟩
  | _ => ⟨1, 0, 0, 0⟩

/-- Counts of one filtered pass over a directory enumeration. -/
def totalsPass (m : Matcher) (cand : Entry → Bool) : List Entry → GrepTotals
  | [] => .zero
  | e :: rest =>
    (if cand e then fileTotals m e else .zero) + totalsPass m cand rest

/-- Counts of the files pass over one directory's enumeration. -/
def totalsFiles (m : Matcher) (sSearch : String → Bool) (l : List Entry) : GrepTotals :=
  totalsPass m (candFiles sSearch) l

mutual
/-- Counts of the whole recursive walk below one directory. -/
def totalsDirVisit (m : Matcher) (ignoreP sSearch : String → Bool) : Entry → GrepTotals
  | .dir _ true children =>
    totalsFiles m sSearch children + totalsSubdirs m ignoreP sSearch children
  | _ => .zero

/-- Counts of the descent into the non-pruned subdirectories. -/
def totalsSubdirs (m : Matcher) (ignoreP sSearch : String → Bool) : List Entry → GrepTotals
  | [] => .zero
  | e :: rest =>
    (if e.isDir && !ignoreP e.name then totalsDirVisit m ignoreP sSearch e else .zero)
      + totalsSubdirs m ignoreP sSearch rest
end

/-- Counts of the non-recursive pass. -/
def totalsNonRec (m : Matcher) (sSearch : String → Bool) (l : List Entry) : GrepTotals :=
  totalsPass m (candNonRec sSearch) l

/-- Counts of the traversal a successful `grep_tool` call performs, mirroring
its branch structure. -/
def grepTotals (m : Matcher) (target : Entry) (recursive : Bool)
    (fpats ignore : List String) : GrepTotals :=
  let ipats := ignore ++ GREP_DEFAULT_IGNORE
  let sSearch := mkSearch ipats fpats
  let ignoreP := mkIgnore ipats
  match target with
  | .file nm rd lns => if sSearch nm then fileTotals m (.file nm rd lns) else .zero
  | .dir nm rd children =>
    if recursive then totalsDirVisit m ignoreP sSearch (.dir nm rd children)
    else if rd then totalsNonRec m sSearch children else .zero
  | .other _ => .zero

/-! ### Behaviour of `scanLines` -/

/-- The match record built for a hit of `m` on raw line `line` (line number
`ln`) of file `fpath`, exactly as `search_file` builds it. -/
def mkMatchRec (fpath : String) (ln : Nat) (line : String) (ms me : Nat) : SMatch :=
  ⟨fpath, ln, pyRstripNL line, ms, me,
    pySlice (pyRstripNL line) (ms - 10) ms,
    pySlice (pyRstripNL line) ms me,
    pySlice (pyRstripNL line) me (min (pyRstripNL line).length (me + 10))⟩

/-- One step of `scanLines` in a normalised single-record form. -/
theorem scanLines_cons (m : Matcher) (maxr : Int) (fpath line : String)
    (rest : List String) (ln : Nat) (fm : Bool) (st : GrepSt) :
    scanLines m maxr fpath (line :: rest) ln fm st =
      if (st.matchList.length : Int) ≥ maxr then { st with truncated := true }
      else match m line with
        | none => scanLines m maxr fpath rest (ln + 1) fm { st with gScanned := st.gScanned + 1 }
        | some (ms, me) =>
          scanLines m maxr fpath rest (ln + 1) true
            { st with
              files_matched := st.files_matched + (if fm then 0 else 1),
              lines_matched := st.lines_matched + 1,
              gScanned := st.gScanned + 1,
              matchList := st.matchList ++ [mkMatchRec fpath ln line ms me] } := by
  simp only [scanLines, mkMatchRec]
  split
  · rfl
  · cases fm <;> rcases m line with _ | ⟨ms, me⟩ <;> rfl

/-- Unconditional facts about one file's line scan: the truncation flag is
never reset, `files_searched` and `gOpens` are untouched, at most `len(lines)`
lines are scanned, `files_matched` grows by at most one (never when the file
was already marked matched), and the match list never outgrows
`max(max_results, 0)`. -/
theorem scanLines_facts (m : Matcher) (maxr : Int) (fpath : String) :
    ∀ (lines : List String) (ln : Nat) (fm : Bool) (st : GrepSt),
      (st.truncated = true → (scanLines m maxr fpath lines ln fm st).truncated = true) ∧
      (scanLines m maxr fpath lines ln fm st).files_searched = st.files_searched ∧
      (scanLines m maxr fpath lines ln fm st).gOpens = st.gOpens ∧
      (scanLines m maxr fpath lines ln fm st).gScanned ≤ st.gScanned + lines.length ∧
      (scanLines m maxr fpath lines ln fm st).files_matched
        ≤ st.files_matched + (if fm then 0 else 1) ∧
      ((st.matchList.length : Int) ≤ max maxr 0 →
        ((scanLines m maxr fpath lines ln fm st).matchList.length : Int) ≤ max maxr 0) := by
  intro lines
  induction lines with
  | nil =>
    intro ln fm st
    refine ⟨fun h => h, rfl, rfl, by simp [scanLines], by cases fm <;> simp [scanLines], fun h => h⟩
  | cons line rest ih =>
    intro ln fm st
    rw [scanLines_cons]
    split
    · exact ⟨fun _ => rfl, rfl, rfl, by simp, by cases fm <;> simp, fun h => h⟩
    · rename_i hcap
      cases hml : m line with
      | none =>
        obtain ⟨i1, i2, i3, i4, i5, i6⟩ := ih (ln + 1) fm { st with gScanned := st.gScanned + 1 }
        refine ⟨i1, i2, i3, ?_, i5, i6⟩
        simp at i4
        simp only [List.length_cons]
        omega
      | some span =>
        obtain ⟨ms, me⟩ := span
        obtain ⟨i1, i2, i3, i4, i5, i6⟩ := ih (ln + 1) true
          { st with
            files_matched := st.files_matched + (if fm then 0 else 1),
            lines_matched := st.lines_matched + 1,
            gScanned := st.gScanned + 1,
            matchList := st.matchList ++ [mkMatchRec fpath ln line ms me] }
        refine ⟨i1, i2, i3, ?_, ?_, ?_⟩
        · simp at i4
          simp only [List.length_cons]
          omega
        · refine le_trans i5 ?_
          simp
        · intro hlen
          refine i6 ?_
          have hlt : (st.matchList.length : Int) < maxr := by omega
          simp
          omega

/-- A line scan that ends un-truncated started un-truncated and performed
exactly the full work of the file: every line scanned, `files_matched`
bumped precisely when some line matched (and the file was not already
marked), `lines_matched` and the match list advanced by the number of
matching lines. -/
theorem scanLines_not_trunc (m : Matcher) (maxr : Int) (fpath : String) :
    ∀ (lines : List String) (ln : Nat) (fm : Bool) (st : GrepSt),
      (scanLines m maxr fpath lines ln fm st).truncated = false →
      st.truncated = false ∧
      (scanLines m maxr fpath lines ln fm st).files_searched = st.files_searched ∧
      (scanLines m maxr fpath lines ln fm st).gOpens = st.gOpens ∧
      (scanLines m maxr fpath lines ln fm st).files_matched
        = st.files_matched
          + (if fm then 0 else if lines.any (fun l => (m l).isSome) then 1 else 0) ∧
      (scanLines m maxr fpath lines ln fm st).lines_matched
        = st.lines_matched + lines.countP (fun l => (m l).isSome) ∧
      (scanLines m maxr fpath lines ln fm st).gScanned = st.gScanned + lines.length ∧
      (scanLines m maxr fpath lines ln fm st).matchList.length
        = st.matchList.length + lines.countP (fun l => (m l).isSome) := by
  intro lines
  induction lines with
  | nil =>
    intro ln fm st h
    refine ⟨h, rfl, rfl, by cases fm <;> simp [scanLines], by simp [scanLines],
      by simp [scanLines], by simp [scanLines]⟩
  | cons line rest ih =>
    intro ln fm st h
    rw [scanLines_cons] at h ⊢
    split at h
    · simp at h
    · rename_i hcap
      split
      · rename_i hcap2
        exact absurd hcap2 hcap
      · cases hml : m line with
        | none =>
          rw [hml] at h
          obtain ⟨h0, e1, e2, e3, e4, e5, e6⟩ := ih (ln + 1) fm
            { st with gScanned := st.gScanned + 1 } h
          refine ⟨h0, e1, e2, ?_, ?_, ?_, ?_⟩
          · simp only [List.any_cons, hml, Option.isSome_none, Bool.false_or]
            exact e3
          · simp only [List.countP_cons, hml, Option.isSome_none]
            simp at e4 ⊢
            omega
          · simp only [List.length_cons]
            simp at e5 ⊢
            omega
          · simp only [List.countP_cons, hml, Option.isSome_none]
            simp at e6 ⊢
            omega
        | some span =>
          obtain ⟨ms, me⟩ := span
          rw [hml] at h
          obtain ⟨h0, e1, e2, e3, e4, e5, e6⟩ := ih (ln + 1) true
            { st with
              files_matched := st.files_matched + (if fm then 0 else 1),
              lines_matched := st.lines_matched + 1,
              gScanned := st.gScanned + 1,
              matchList := st.matchList ++ [mkMatchRec fpath ln line ms me] } h
          simp at h0 e1 e2 e3 e4 e5 e6
          refine ⟨h0, e1, e2, ?_, ?_, ?_, ?_⟩
          · simp only [List.any_cons, hml, Option.isSome_some, Bool.true_or]
            cases fm <;> simp at e3 ⊢ <;> omega
          · simp only [List.countP_cons, hml, Option.isSome_some]
            simp
            omega
          · simp only [List.length_cons]
            omega
          · simp only [List.countP_cons, hml, Option.isSome_some]
            simp
            omega

/-- If the truncation flag turned on during a line scan, at least one line of
the file was left unscanned. -/
theorem scanLines_onset (m : Matcher) (maxr : Int) (fpath : String) :
    ∀ (lines : List String) (ln : Nat) (fm : Bool) (st : GrepSt),
      st.truncated = false →
      (scanLines m maxr fpath lines ln fm st).truncated = true →
      (scanLines m maxr fpath lines ln fm st).gScanned < st.gScanned + lines.length := by
  intro lines
  induction lines with
  | nil =>
    intro ln fm st h0 h1
    simp only [scanLines] at h1
    rw [h0] at h1
    exact absurd h1 (by simp)
  | cons line rest ih =>
    intro ln fm st h0 h1
    rw [scanLines_cons] at h1 ⊢
    by_cases hcap : (st.matchList.length : Int) ≥ maxr
    · rw [if_pos hcap]
      simp only [List.length_cons]
      simp
    · rw [if_neg hcap] at h1 ⊢
      cases hml : m line with
      | none =>
        have key := ih (ln + 1) fm { st with gScanned := st.gScanned + 1 } h0
        rw [hml] at h1
        have := key h1
        simp only [List.length_cons]
        simp at this
        omega
      | some span =>
        obtain ⟨ms, me⟩ := span
        have key := ih (ln + 1) true
          { st with
            files_matched := st.files_matched + (if fm then 0 else 1),
            lines_matched := st.lines_matched + 1,
            gScanned := st.gScanned + 1,
            matchList := st.matchList ++ [mkMatchRec fpath ln line ms me] } h0
        rw [hml] at h1
        have := key h1
        simp only [List.length_cons]
        simp at this
        omega

/-- `fileTotals` always records exactly one attempted file. -/
theorem fileTotals_files (m : Matcher) (e : Entry) : (fileTotals m e).files = 1 := by
  rcases e with ⟨nm, rd, lns⟩ | ⟨nm, rd, cs⟩ | nm
  · cases rd <;> rfl
  · rfl
  · rfl

/-! ### Behaviour of `searchEntry` -/

/-- Unconditional facts about one `search_file` call: truncation is sticky,
`files_searched` advances by exactly one, `files_matched` by at most one,
opens and scans stay within the file's own counts, and the match list stays
within `max(max_results, 0)`. -/
theorem searchEntry_facts (m : Matcher) (maxr : Int) (fpath : String) (e : Entry) (st : GrepSt) :
    (st.truncated = true → (searchEntry m maxr fpath e st).truncated = true) ∧
    (searchEntry m maxr fpath e st).files_searched = st.files_searched + 1 ∧
    (searchEntry m maxr fpath e st).files_matched ≤ st.files_matched + 1 ∧
    (searchEntry m maxr fpath e st).gOpens ≤ st.gOpens + (fileTotals m e).files ∧
    (searchEntry m maxr fpath e st).gScanned ≤ st.gScanned + (fileTotals m e).scanned ∧
    ((st.matchList.length : Int) ≤ max maxr 0 →
      ((searchEntry m maxr fpath e st).matchList.length : Int) ≤ max maxr 0) := by
  simp only [searchEntry]
  split
  · exact ⟨fun _ => rfl, rfl, by simp, by simp [fileTotals_files], by simp, fun h => h⟩
  · rcases e with ⟨nm, rd, lns⟩ | ⟨nm, rd, cs⟩ | nm
    · cases rd
      · exact ⟨fun h => h, rfl, by simp, by simp [fileTotals], by simp [fileTotals], fun h => h⟩
      · obtain ⟨i1, i2, i3, i4, i5, i6⟩ := scanLines_facts m maxr fpath lns 1 false
          { st with files_searched := st.files_searched + 1, gOpens := st.gOpens + 1 }
        refine ⟨fun h => i1 h, i2, by simpa using i5, ?_, ?_, i6⟩
        · rw [i3]
          simp [fileTotals]
        · simp only [fileTotals]
          simp at i4 ⊢
          omega
    · exact ⟨fun h => h, rfl, by simp, by simp [fileTotals], by simp [fileTotals], fun h => h⟩
    · exact ⟨fun h => h, rfl, by simp, by simp [fileTotals], by simp [fileTotals], fun h => h⟩

/-- `searchEntry` in a flat single-record normal form. -/
theorem searchEntry_eq (m : Matcher) (maxr : Int) (fpath : String) (e : Entry) (st : GrepSt) :
    searchEntry m maxr fpath e st =
      if ((st.matchList.length : Int) ≥ maxr) then
        { st with files_searched := st.files_searched + 1, truncated := true }
      else match e with
        | .file _ true lines =>
          scanLines m maxr fpath lines 1 false
            { st with files_searched := st.files_searched + 1, gOpens := st.gOpens + 1 }
        | _ => { st with files_searched := st.files_searched + 1, gOpens := st.gOpens + 1 } := by
  rcases e with ⟨nm, rd, lns⟩ | ⟨nm, rd, cs⟩ | nm
  · cases rd
    · rfl
    · rfl
  · rfl
  · rfl

/-- A `search_file` call that ends un-truncated performed exactly the file's
own counts' worth of work. -/
theorem searchEntry_not_trunc (m : Matcher) (maxr : Int) (fpath : String) (e : Entry) (st : GrepSt)
    (h : (searchEntry m maxr fpath e st).truncated = false) :
    st.truncated = false ∧
    (searchEntry m maxr fpath e st).files_searched = st.files_searched + (fileTotals m e).files ∧
    (searchEntry m maxr fpath e st).files_matched = st.files_matched + (fileTotals m e).fmatched ∧
    (searchEntry m maxr fpath e st).lines_matched = st.lines_matched + (fileTotals m e).lmatched ∧
    (searchEntry m maxr fpath e st).gOpens = st.gOpens + (fileTotals m e).files ∧
    (searchEntry m maxr fpath e st).gScanned = st.gScanned + (fileTotals m e).scanned ∧
    (searchEntry m maxr fpath e st).matchList.length
      = st.matchList.length + (fileTotals m e).lmatched := by
  rw [searchEntry_eq] at h ⊢
  by_cases hcap : (st.matchList.length : Int) ≥ maxr
  · rw [if_pos hcap] at h
    simp at h
  · rw [if_neg hcap] at h ⊢
    rcases e with ⟨nm, rd, lns⟩ | ⟨nm, rd, cs⟩ | nm
    · cases rd with
      | false =>
        exact ⟨h, rfl, by simp [fileTotals], by simp [fileTotals], by simp [fileTotals],
          by simp [fileTotals], by simp [fileTotals]⟩
      | true =>
        obtain ⟨h0, e1, e2, e3, e4, e5, e6⟩ := scanLines_not_trunc m maxr fpath lns 1 false
          { st with files_searched := st.files_searched + 1, gOpens := st.gOpens + 1 } h
        refine ⟨by simpa using h0, ?_, ?_, ?_, ?_, ?_, ?_⟩
        · rw [e1]
          simp [fileTotals_files]
        · rw [e3]
          simp [fileTotals]
        · rw [e4]
          simp [fileTotals]
        · rw [e2]
          simp [fileTotals_files]
        · rw [e5]
          simp [fileTotals]
        · rw [e6]
          simp [fileTotals]
    · exact ⟨h, rfl, by simp [fileTotals], by simp [fileTotals], by simp [fileTotals],
        by simp [fileTotals], by simp [fileTotals]⟩
    · exact ⟨h, rfl, by simp [fileTotals], by simp [fileTotals], by simp [fileTotals],
        by simp [fileTotals], by simp [fileTotals]⟩

/-- If one `search_file` call switched the truncation flag on, it skipped
work: either the open was skipped or some line went unscanned. -/
theorem searchEntry_onset (m : Matcher) (maxr : Int) (fpath : String) (e : Entry) (st : GrepSt)
    (h0 : st.truncated = false) (h1 : (searchEntry m maxr fpath e st).truncated = true) :
    (searchEntry m maxr fpath e st).gOpens < st.gOpens + (fileTotals m e).files ∨
    (searchEntry m maxr fpath e st).gScanned < st.gScanned + (fileTotals m e).scanned := by
  rw [searchEntry_eq] at h1 ⊢
  by_cases hcap : (st.matchList.length : Int) ≥ maxr
  · rw [if_pos hcap]
    left
    simp [fileTotals_files]
  · rw [if_neg hcap] at h1 ⊢
    rcases e with ⟨nm, rd, lns⟩ | ⟨nm, rd, cs⟩ | nm
    · cases rd with
      | false =>
        simp at h1
        exact absurd h1 (by simp [h0])
      | true =>
        right
        have := scanLines_onset m maxr fpath lns 1 false
          { st with files_searched := st.files_searched + 1, gOpens := st.gOpens + 1 }
          (by simpa using h0) h1
        simp only [fileTotals]
        simp at this ⊢
        omega
    · simp at h1
      exact absurd h1 (by simp [h0])
    · simp at h1
      exact absurd h1 (by simp [h0])

/-- With a non-positive result cap, `search_file` only bumps `files_searched`
and raises the truncation flag: the cap check fires before the open. -/
theorem searchEntry_cap0 (m : Matcher) (maxr : Int) (fpath : String) (e : Entry) (st : GrepSt)
    (hmax : maxr ≤ 0) :
    searchEntry m maxr fpath e st
      = { st with files_searched := st.files_searched + 1, truncated := true } := by
  rw [searchEntry_eq, if_pos (show (st.matchList.length : Int) ≥ maxr by omega)]

/-! ### Behaviour of one filtered pass (`grepPass`) -/

/-- Unconditional facts about one filtered pass. -/
theorem grepPass_facts (m : Matcher) (maxr : Int) (cand : Entry → Bool) (parent : String) :
    ∀ (l : List Entry) (st : GrepSt),
      (st.truncated = true → (grepPass m maxr cand parent l st).truncated = true) ∧
      st.files_searched ≤ (grepPass m maxr cand parent l st).files_searched ∧
      (grepPass m maxr cand parent l st).gOpens
        ≤ st.gOpens + (totalsPass m cand l).files ∧
      (grepPass m maxr cand parent l st).gScanned
        ≤ st.gScanned + (totalsPass m cand l).scanned ∧
      ((st.matchList.length : Int) ≤ max maxr 0 →
        ((grepPass m maxr cand parent l st).matchList.length : Int) ≤ max maxr 0) ∧
      (st.files_matched ≤ st.files_searched →
        (grepPass m maxr cand parent l st).files_matched
          ≤ (grepPass m maxr cand parent l st).files_searched) := by
  intro l
  induction l with
  | nil =>
    intro st
    exact ⟨fun h => h, le_refl _, by simp [grepPass, totalsPass], by simp [grepPass, totalsPass],
      fun h => h, fun h => h⟩
  | cons e rest ih =>
    intro st
    simp only [grepPass]
    by_cases hc : cand e = true
    · rw [if_pos hc]
      obtain ⟨s1, s2, s3, s4, s5, s6⟩ :=
        searchEntry_facts m maxr (joinPath parent e.name) e st
      by_cases ht : (searchEntry m maxr (joinPath parent e.name) e st).truncated = true
      · rw [if_pos ht]
        refine ⟨fun _ => ht, by omega, ?_, ?_, s6, ?_⟩
        · simp only [totalsPass, hc, if_pos, GrepTotals.add_files]
          omega
        · simp only [totalsPass, hc, if_pos, GrepTotals.add_scanned]
          omega
        · intro hfm
          omega
      · rw [if_neg ht]
        obtain ⟨i1, i2, i3, i4, i5, i6⟩ := ih (searchEntry m maxr (joinPath parent e.name) e st)
        refine ⟨fun h => i1 (s1 h), by omega, ?_, ?_, fun h => i5 (s6 h), ?_⟩
        · simp only [totalsPass, hc, if_pos, GrepTotals.add_files]
          omega
        · simp only [totalsPass, hc, if_pos, GrepTotals.add_scanned]
          omega
        · intro hfm
          exact i6 (by omega)
    · rw [if_neg hc]
      by_cases ht : st.truncated = true
      · rw [if_pos ht]
        refine ⟨fun _ => ht, le_refl _, by simp, by simp, fun h => h, fun h => h⟩
      · rw [if_neg ht]
        obtain ⟨i1, i2, i3, i4, i5, i6⟩ := ih st
        refine ⟨fun h => absurd h ht, i2, ?_, ?_, i5, i6⟩
        · simp only [totalsPass, hc, if_neg, GrepTotals.add_files]
          simp
          omega
        · simp only [totalsPass, hc, if_neg, GrepTotals.add_scanned]
          simp
          omega

/-- A filtered pass that ends un-truncated performed exactly the reference
counts' worth of work. -/
theorem grepPass_not_trunc (m : Matcher) (maxr : Int) (cand : Entry → Bool) (parent : String) :
    ∀ (l : List Entry) (st : GrepSt),
      (grepPass m maxr cand parent l st).truncated = false →
      st.truncated = false ∧
      (grepPass m maxr cand parent l st).files_searched
        = st.files_searched + (totalsPass m cand l).files ∧
      (grepPass m maxr cand parent l st).files_matched
        = st.files_matched + (totalsPass m cand l).fmatched ∧
      (grepPass m maxr cand parent l st).lines_matched
        = st.lines_matched + (totalsPass m cand l).lmatched ∧
      (grepPass m maxr cand parent l st).gOpens
        = st.gOpens + (totalsPass m cand l).files ∧
      (grepPass m maxr cand parent l st).gScanned
        = st.gScanned + (totalsPass m cand l).scanned ∧
      (grepPass m maxr cand parent l st).matchList.length
        = st.matchList.length + (totalsPass m cand l).lmatched := by
  intro l
  induction l with
  | nil =>
    intro st h
    exact ⟨h, by simp [grepPass, totalsPass], by simp [grepPass, totalsPass],
      by simp [grepPass, totalsPass], by simp [grepPass, totalsPass],
      by simp [grepPass, totalsPass], by simp [grepPass, totalsPass]⟩
  | cons e rest ih =>
    intro st h
    simp only [grepPass] at h ⊢
    by_cases hc : cand e = true
    · rw [if_pos hc] at h ⊢
      by_cases ht : (searchEntry m maxr (joinPath parent e.name) e st).truncated = true
      · rw [if_pos ht] at h
        exact absurd ht (by simp [h])
      · rw [if_neg ht] at h ⊢
        obtain ⟨i0, i1, i2, i3, i4, i5, i6⟩ := ih _ h
        obtain ⟨s0, s1, s2, s3, s4, s5, s6⟩ :=
          searchEntry_not_trunc m maxr (joinPath parent e.name) e st i0
        refine ⟨s0, ?_, ?_, ?_, ?_, ?_, ?_⟩ <;>
          simp only [totalsPass, hc, if_pos, GrepTotals.add_files, GrepTotals.add_fmatched,
            GrepTotals.add_lmatched, GrepTotals.add_scanned] <;> omega
    · rw [if_neg hc] at h ⊢
      by_cases ht : st.truncated = true
      · rw [if_pos ht] at h
        exact absurd ht (by simp [h])
      · rw [if_neg ht] at h ⊢
        obtain ⟨i0, i1, i2, i3, i4, i5, i6⟩ := ih st h
        refine ⟨i0, ?_, ?_, ?_, ?_, ?_, ?_⟩ <;>
          simp only [totalsPass, hc, if_neg, GrepTotals.add_files, GrepTotals.add_fmatched,
            GrepTotals.add_lmatched, GrepTotals.add_scanned] <;> simp <;> omega

/-- If the truncation flag turned on during a filtered pass, some candidate
open or some line scan of the pass was skipped. -/
theorem grepPass_onset (m : Matcher) (maxr : Int) (cand : Entry → Bool) (parent : String) :
    ∀ (l : List Entry) (st : GrepSt),
      st.truncated = false →
      (grepPass m maxr cand parent l st).truncated = true →
      (grepPass m maxr cand parent l st).gOpens
          < st.gOpens + (totalsPass m cand l).files ∨
      (grepPass m maxr cand parent l st).gScanned
          < st.gScanned + (totalsPass m cand l).scanned := by
  intro l
  induction l with
  | nil =>
    intro st h0 h1
    simp only [grepPass] at h1
    exact absurd h1 (by simp [h0])
  | cons e rest ih =>
    intro st h0 h1
    simp only [grepPass] at h1 ⊢
    by_cases hc : cand e = true
    · rw [if_pos hc] at h1 ⊢
      by_cases ht : (searchEntry m maxr (joinPath parent e.name) e st).truncated = true
      · rw [if_pos ht] at h1 ⊢
        rcases searchEntry_onset m maxr (joinPath parent e.name) e st h0 ht with hs | hs
        · left
          simp only [totalsPass, hc, if_pos, GrepTotals.add_files]
          omega
        · right
          simp only [totalsPass, hc, if_pos, GrepTotals.add_scanned]
          omega
      · rw [if_neg ht] at h1 ⊢
        obtain ⟨s1, s2, s3, s4, s5, s6⟩ :=
          searchEntry_facts m maxr (joinPath parent e.name) e st
        rcases ih (searchEntry m maxr (joinPath parent e.name) e st)
          (by simpa using ht) h1 with hs | hs
        · left
          simp only [totalsPass, hc, if_pos, GrepTotals.add_files]
          omega
        · right
          simp only [totalsPass, hc, if_pos, GrepTotals.add_scanned]
          omega
    · rw [if_neg hc] at h1 ⊢
      rw [if_neg (by simp [h0] : ¬ st.truncated = true)] at h1 ⊢
      rcases ih st h0 h1 with hs | hs
      · left
        simp only [totalsPass, hc, if_neg, GrepTotals.add_files]
        simp
        omega
      · right
        simp only [totalsPass, hc, if_neg, GrepTotals.add_scanned]
        simp
        omega

/-- With a non-positive result cap, a filtered pass stops at its first
candidate: nothing is opened or scanned, no match is recorded, and the
truncation flag rises exactly when a candidate exists. -/
theorem grepPass_cap0 (m : Matcher) (maxr : Int) (cand : Entry → Bool) (parent : String)
    (hmax : maxr ≤ 0) :
    ∀ (l : List Entry) (st : GrepSt),
      st.truncated = false →
      (grepPass m maxr cand parent l st).files_searched
        = st.files_searched + (if (totalsPass m cand l).files = 0 then 0 else 1) ∧
      ((grepPass m maxr cand parent l st).truncated = true
        ↔ (totalsPass m cand l).files ≠ 0) ∧
      (grepPass m maxr cand parent l st).files_matched = st.files_matched ∧
      (grepPass m maxr cand parent l st).lines_matched = st.lines_matched ∧
      (grepPass m maxr cand parent l st).matchList = st.matchList ∧
      (grepPass m maxr cand parent l st).gOpens = st.gOpens ∧
      (grepPass m maxr cand parent l st).gScanned = st.gScanned := by
  intro l
  induction l with
  | nil =>
    intro st h0
    refine ⟨by simp [grepPass, totalsPass], ?_, rfl, rfl, rfl, rfl, rfl⟩
    simp [grepPass, totalsPass, h0]
  | cons e rest ih =>
    intro st h0
    simp only [grepPass]
    by_cases hc : cand e = true
    · rw [if_pos hc, searchEntry_cap0 m maxr (joinPath parent e.name) e st hmax]
      rw [if_pos rfl]
      have hfiles : (totalsPass m cand (e :: rest)).files ≠ 0 := by
        simp only [totalsPass, hc, if_pos, GrepTotals.add_files, fileTotals_files]
        omega
      refine ⟨?_, ?_, rfl, rfl, rfl, rfl, rfl⟩
      · simp [hfiles]
      · simp [hfiles]
    · rw [if_neg hc]
      rw [if_neg (by simp [h0] : ¬ st.truncated = true)]
      obtain ⟨i1, i2, i3, i4, i5, i6, i7⟩ := ih st h0
      have htt : (totalsPass m cand (e :: rest)).files = (totalsPass m cand rest).files := by
        simp only [totalsPass, hc, if_neg, GrepTotals.add_files]
        simp
      rw [htt]
      exact ⟨i1, i2, i3, i4, i5, i6, i7⟩

/-! ### Behaviour of the recursive walk -/

mutual
/-- Unconditional facts about the walk below one directory. -/
theorem grepDirVisit_facts (m : Matcher) (maxr : Int) (ignoreP sSearch : String → Bool) :
    ∀ (e : Entry) (pth : String) (st : GrepSt),
      (st.truncated = true → (grepDirVisit m maxr ignoreP sSearch e pth st).truncated = true) ∧
      st.files_searched ≤ (grepDirVisit m maxr ignoreP sSearch e pth st).files_searched ∧
      (grepDirVisit m maxr ignoreP sSearch e pth st).gOpens
        ≤ st.gOpens + (totalsDirVisit m ignoreP sSearch e).files ∧
      (grepDirVisit m maxr ignoreP sSearch e pth st).gScanned
        ≤ st.gScanned + (totalsDirVisit m ignoreP sSearch e).scanned ∧
      ((st.matchList.length : Int) ≤ max maxr 0 →
        (((grepDirVisit m maxr ignoreP sSearch e pth st).matchList.length : Int)
          ≤ max maxr 0)) ∧
      (st.files_matched ≤ st.files_searched →
        (grepDirVisit m maxr ignoreP sSearch e pth st).files_matched
          ≤ (grepDirVisit m maxr ignoreP sSearch e pth st).files_searched)
  | .file nm rd lns, pth, st => by
    exact ⟨fun h => h, le_refl _, by simp [grepDirVisit, totalsDirVisit],
      by simp [grepDirVisit, totalsDirVisit], fun h => h, fun h => h⟩
  | .other nm, pth, st => by
    exact ⟨fun h => h, le_refl _, by simp [grepDirVisit, totalsDirVisit],
      by simp [grepDirVisit, totalsDirVisit], fun h => h, fun h => h⟩
  | .dir nm false cs, pth, st => by
    exact ⟨fun h => h, le_refl _, by simp [grepDirVisit, totalsDirVisit],
      by simp [grepDirVisit, totalsDirVisit], fun h => h, fun h => h⟩
  | .dir nm true cs, pth, st => by
    simp only [grepDirVisit, totalsDirVisit, grepFilesOf, totalsFiles]
    obtain ⟨p1, p2, p3, p4, p5, p6⟩ := grepPass_facts m maxr (candFiles sSearch) pth cs st
    by_cases ht : (grepPass m maxr (candFiles sSearch) pth cs st).truncated = true
    · rw [if_pos ht]
      refine ⟨fun _ => ht, p2, ?_, ?_, p5, p6⟩
      · simp only [GrepTotals.add_files]
        omega
      · simp only [GrepTotals.add_scanned]
        omega
    · rw [if_neg ht]
      obtain ⟨i1, i2, i3, i4, i5, i6⟩ := grepSubdirs_facts m maxr ignoreP sSearch cs pth
        (grepPass m maxr (candFiles sSearch) pth cs st)
      refine ⟨fun h => i1 (p1 h), by omega, ?_, ?_, fun h => i5 (p5 h), fun h => i6 (p6 h)⟩
      · simp only [GrepTotals.add_files]
        omega
      · simp only [GrepTotals.add_scanned]
        omega

/-- Unconditional facts about the descent into the subdirectories. -/
theorem grepSubdirs_facts (m : Matcher) (maxr : Int) (ignoreP sSearch : String → Bool) :
    ∀ (l : List Entry) (parent : String) (st : GrepSt),
      (st.truncated = true → (grepSubdirs m maxr ignoreP sSearch l parent st).truncated = true) ∧
      st.files_searched ≤ (grepSubdirs m maxr ignoreP sSearch l parent st).files_searched ∧
      (grepSubdirs m maxr ignoreP sSearch l parent st).gOpens
        ≤ st.gOpens + (totalsSubdirs m ignoreP sSearch l).files ∧
      (grepSubdirs m maxr ignoreP sSearch l parent st).gScanned
        ≤ st.gScanned + (totalsSubdirs m ignoreP sSearch l).scanned ∧
      ((st.matchList.length : Int) ≤ max maxr 0 →
        (((grepSubdirs m maxr ignoreP sSearch l parent st).matchList.length : Int)
          ≤ max maxr 0)) ∧
      (st.files_matched ≤ st.files_searched →
        (grepSubdirs m maxr ignoreP sSearch l parent st).files_matched
          ≤ (grepSubdirs m maxr ignoreP sSearch l parent st).files_searched)
  | [], parent, st => by
    exact ⟨fun h => h, le_refl _, by simp [grepSubdirs, totalsSubdirs],
      by simp [grepSubdirs, totalsSubdirs], fun h => h, fun h => h⟩
  | e :: rest, parent, st => by
    simp only [grepSubdirs, totalsSubdirs]
    by_cases hd : (e.isDir && !ignoreP e.name) = true
    · rw [if_pos hd, if_pos hd]
      obtain ⟨v1, v2, v3, v4, v5, v6⟩ := grepDirVisit_facts m maxr ignoreP sSearch e
        (joinPath parent e.name) st
      by_cases ht : (grepDirVisit m maxr ignoreP sSearch e (joinPath parent e.name) st).truncated
          = true
      · rw [if_pos ht]
        refine ⟨fun _ => ht, v2, ?_, ?_, v5, v6⟩
        · simp only [GrepTotals.add_files]
          omega
        · simp only [GrepTotals.add_scanned]
          omega
      · rw [if_neg ht]
        obtain ⟨i1, i2, i3, i4, i5, i6⟩ := grepSubdirs_facts m maxr ignoreP sSearch rest parent
          (grepDirVisit m maxr ignoreP sSearch e (joinPath parent e.name) st)
        refine ⟨fun h => i1 (v1 h), by omega, ?_, ?_, fun h => i5 (v5 h), fun h => i6 (v6 h)⟩
        · simp only [GrepTotals.add_files]
          omega
        · simp only [GrepTotals.add_scanned]
          omega
    · rw [if_neg hd, if_neg hd]
      obtain ⟨i1, i2, i3, i4, i5, i6⟩ := grepSubdirs_facts m maxr ignoreP sSearch rest parent st
      refine ⟨i1, i2, ?_, ?_, i5, i6⟩
      · simp only [GrepTotals.add_files, GrepTotals.zero_files]
        omega
      · simp only [GrepTotals.add_scanned, GrepTotals.zero_scanned]
        omega
end

mutual
/-- A walk below one directory that ends un-truncated performed exactly the
reference counts' worth of work. -/
theorem grepDirVisit_not_trunc (m : Matcher) (maxr : Int) (ignoreP sSearch : String → Bool) :
    ∀ (e : Entry) (pth : String) (st : GrepSt),
      (grepDirVisit m maxr ignoreP sSearch e pth st).truncated = false →
      st.truncated = false ∧
      (grepDirVisit m maxr ignoreP sSearch e pth st).files_searched
        = st.files_searched + (totalsDirVisit m ignoreP sSearch e).files ∧
      (grepDirVisit m maxr ignoreP sSearch e pth st).files_matched
        = st.files_matched + (totalsDirVisit m ignoreP sSearch e).fmatched ∧
      (grepDirVisit m maxr ignoreP sSearch e pth st).lines_matched
        = st.lines_matched + (totalsDirVisit m ignoreP sSearch e).lmatched ∧
      (grepDirVisit m maxr ignoreP sSearch e pth st).gOpens
        = st.gOpens + (totalsDirVisit m ignoreP sSearch e).files ∧
      (grepDirVisit m maxr ignoreP sSearch e pth st).gScanned
        = st.gScanned + (totalsDirVisit m ignoreP sSearch e).scanned ∧
      (grepDirVisit m maxr ignoreP sSearch e pth st).matchList.length
        = st.matchList.length + (totalsDirVisit m ignoreP sSearch e).lmatched
  | .file nm rd lns, pth, st => by
    intro h
    exact ⟨h, by simp [grepDirVisit, totalsDirVisit], by simp [grepDirVisit, totalsDirVisit],
      by simp [grepDirVisit, totalsDirVisit], by simp [grepDirVisit, totalsDirVisit],
      by simp [grepDirVisit, totalsDirVisit], by simp [grepDirVisit, totalsDirVisit]⟩
  | .other nm, pth, st => by
    intro h
    exact ⟨h, by simp [grepDirVisit, totalsDirVisit], by simp [grepDirVisit, totalsDirVisit],
      by simp [grepDirVisit, totalsDirVisit], by simp [grepDirVisit, totalsDirVisit],
      by simp [grepDirVisit, totalsDirVisit], by simp [grepDirVisit, totalsDirVisit]⟩
  | .dir nm false cs, pth, st => by
    intro h
    exact ⟨h, by simp [grepDirVisit, totalsDirVisit], by simp [grepDirVisit, totalsDirVisit],
      by simp [grepDirVisit, totalsDirVisit], by simp [grepDirVisit, totalsDirVisit],
      by simp [grepDirVisit, totalsDirVisit], by simp [grepDirVisit, totalsDirVisit]⟩
  | .dir nm true cs, pth, st => by
    intro h
    simp only [grepDirVisit, totalsDirVisit, grepFilesOf, totalsFiles] at h ⊢
    by_cases ht : (grepPass m maxr (candFiles sSearch) pth cs st).truncated = true
    · rw [if_pos ht] at h
      exact absurd ht (by simp [h])
    · rw [if_neg ht] at h ⊢
      obtain ⟨i0, i1, i2, i3, i4, i5, i6⟩ :=
        grepSubdirs_not_trunc m maxr ignoreP sSearch cs pth
          (grepPass m maxr (candFiles sSearch) pth cs st) h
      obtain ⟨p0, p1, p2, p3, p4, p5, p6⟩ :=
        grepPass_not_trunc m maxr (candFiles sSearch) pth cs st i0
      refine ⟨p0, ?_, ?_, ?_, ?_, ?_, ?_⟩ <;>
        simp only [GrepTotals.add_files, GrepTotals.add_fmatched, GrepTotals.add_lmatched,
          GrepTotals.add_scanned] <;> omega

/-- A subdirectory descent that ends un-truncated performed exactly the
reference counts' worth of work. -/
theorem grepSubdirs_not_trunc (m : Matcher) (maxr : Int) (ignoreP sSearch : String → Bool) :
    ∀ (l : List Entry) (parent : String) (st : GrepSt),
      (grepSubdirs m maxr ignoreP sSearch l parent st).truncated = false →
      st.truncated = false ∧
      (grepSubdirs m maxr ignoreP sSearch l parent st).files_searched
        = st.files_searched + (totalsSubdirs m ignoreP sSearch l).files ∧
      (grepSubdirs m maxr ignoreP sSearch l parent st).files_matched
        = st.files_matched + (totalsSubdirs m ignoreP sSearch l).fmatched ∧
      (grepSubdirs m maxr ignoreP sSearch l parent st).lines_matched
        = st.lines_matched + (totalsSubdirs m ignoreP sSearch l).lmatched ∧
      (grepSubdirs m maxr ignoreP sSearch l parent st).gOpens
        = st.gOpens + (totalsSubdirs m ignoreP sSearch l).files ∧
      (grepSubdirs m maxr ignoreP sSearch l parent st).gScanned
        = st.gScanned + (totalsSubdirs m ignoreP sSearch l).scanned ∧
      (grepSubdirs m maxr ignoreP sSearch l parent st).matchList.length
        = st.matchList.length + (totalsSubdirs m ignoreP sSearch l).lmatched
  | [], parent, st => by
    intro h
    exact ⟨h, by simp [grepSubdirs, totalsSubdirs], by simp [grepSubdirs, totalsSubdirs],
      by simp [grepSubdirs, totalsSubdirs], by simp [grepSubdirs, totalsSubdirs],
      by simp [grepSubdirs, totalsSubdirs], by simp [grepSubdirs, totalsSubdirs]⟩
  | e :: rest, parent, st => by
    intro h
    simp only [grepSubdirs, totalsSubdirs] at h ⊢
    by_cases hd : (e.isDir && !ignoreP e.name) = true
    · rw [if_pos hd] at h ⊢
      by_cases ht : (grepDirVisit m maxr ignoreP sSearch e (joinPath parent e.name) st).truncated
          = true
      · rw [if_pos ht] at h
        exact absurd ht (by simp [h])
      · rw [if_neg ht] at h ⊢
        obtain ⟨i0, i1, i2, i3, i4, i5, i6⟩ :=
          grepSubdirs_not_trunc m maxr ignoreP sSearch rest parent
            (grepDirVisit m maxr ignoreP sSearch e (joinPath parent e.name) st) h
        obtain ⟨v0, v1, v2, v3, v4, v5, v6⟩ :=
          grepDirVisit_not_trunc m maxr ignoreP sSearch e (joinPath parent e.name) st i0
        refine ⟨v0, ?_, ?_, ?_, ?_, ?_, ?_⟩ <;> simp [hd] <;> omega
    · rw [if_neg hd] at h ⊢
      obtain ⟨i0, i1, i2, i3, i4, i5, i6⟩ :=
        grepSubdirs_not_trunc m maxr ignoreP sSearch rest parent st h
      refine ⟨i0, ?_, ?_, ?_, ?_, ?_, ?_⟩ <;> simp [hd] <;> omega
end

mutual
/-- If the truncation flag turned on during the walk below a directory, some
candidate open or line scan of that subtree was skipped. -/
theorem grepDirVisit_onset (m : Matcher) (maxr : Int) (ignoreP sSearch : String → Bool) :
    ∀ (e : Entry) (pth : String) (st : GrepSt),
      st.truncated = false →
      (grepDirVisit m maxr ignoreP sSearch e pth st).truncated = true →
      (grepDirVisit m maxr ignoreP sSearch e pth st).gOpens
          < st.gOpens + (totalsDirVisit m ignoreP sSearch e).files ∨
      (grepDirVisit m maxr ignoreP sSearch e pth st).gScanned
          < st.gScanned + (totalsDirVisit m ignoreP sSearch e).scanned
  | .file nm rd lns, pth, st => by
    intro h0 h1
    exact absurd h1 (by simp [grepDirVisit, h0])
  | .other nm, pth, st => by
    intro h0 h1
    exact absurd h1 (by simp [grepDirVisit, h0])
  | .dir nm false cs, pth, st => by
    intro h0 h1
    exact absurd h1 (by simp [grepDirVisit, h0])
  | .dir nm true cs, pth, st => by
    intro h0 h1
    simp only [grepDirVisit, totalsDirVisit, grepFilesOf, totalsFiles] at h1 ⊢
    by_cases ht : (grepPass m maxr (candFiles sSearch) pth cs st).truncated = true
    · rw [if_pos ht] at h1 ⊢
      rcases grepPass_onset m maxr (candFiles sSearch) pth cs st h0 ht with hs | hs
      · left
        simp only [GrepTotals.add_files]
        omega
      · right
        simp only [GrepTotals.add_scanned]
        omega
    · rw [if_neg ht] at h1 ⊢
      obtain ⟨p1, p2, p3, p4, p5, p6⟩ := grepPass_facts m maxr (candFiles sSearch) pth cs st
      rcases grepSubdirs_onset m maxr ignoreP sSearch cs pth
          (grepPass m maxr (candFiles sSearch) pth cs st) (by simpa using ht) h1 with hs | hs
      · left
        simp only [GrepTotals.add_files]
        omega
      · right
        simp only [GrepTotals.add_scanned]
        omega

/-- If the truncation flag turned on during the subdirectory descent, some
candidate open or line scan of the descent was skipped. -/
theorem grepSubdirs_onset (m : Matcher) (maxr : Int) (ignoreP sSearch : String → Bool) :
    ∀ (l : List Entry) (parent : String) (st : GrepSt),
      st.truncated = false →
      (grepSubdirs m maxr ignoreP sSearch l parent st).truncated = true →
      (grepSubdirs m maxr ignoreP sSearch l parent st).gOpens
          < st.gOpens + (totalsSubdirs m ignoreP sSearch l).files ∨
      (grepSubdirs m maxr ignoreP sSearch l parent st).gScanned
          < st.gScanned + (totalsSubdirs m ignoreP sSearch l).scanned
  | [], parent, st => by
    intro h0 h1
    exact absurd h1 (by simp [grepSubdirs, h0])
  | e :: rest, parent, st => by
    intro h0 h1
    simp only [grepSubdirs, totalsSubdirs] at h1 ⊢
    by_cases hd : (e.isDir && !ignoreP e.name) = true
    · rw [if_pos hd] at h1 ⊢
      by_cases ht : (grepDirVisit m maxr ignoreP sSearch e (joinPath parent e.name) st).truncated
          = true
      · rw [if_pos ht] at h1 ⊢
        rcases grepDirVisit_onset m maxr ignoreP sSearch e (joinPath parent e.name) st h0 ht
          with hs | hs
        · left
          simp [hd]
          omega
        · right
          simp [hd]
          omega
      · rw [if_neg ht] at h1 ⊢
        obtain ⟨v1, v2, v3, v4, v5, v6⟩ := grepDirVisit_facts m maxr ignoreP sSearch e
          (joinPath parent e.name) st
        rcases grepSubdirs_onset m maxr ignoreP sSearch rest parent
            (grepDirVisit m maxr ignoreP sSearch e (joinPath parent e.name) st)
            (by simpa using ht) h1 with hs | hs
        · left
          simp [hd]
          omega
        · right
          simp [hd]
          omega
    · rw [if_neg hd] at h1 ⊢
      rcases grepSubdirs_onset m maxr ignoreP sSearch rest parent st h0 h1 with hs | hs
      · left
        simp [hd]
        omega
      · right
        simp [hd]
        omega
end

mutual
/-- With a non-positive result cap, the walk below a directory attempts (at
most) its first candidate file and performs no open, no scan and no match;
the truncation flag rises exactly when the subtree holds a candidate. -/
theorem grepDirVisit_cap0 (m : Matcher) (maxr : Int) (ignoreP sSearch : String → Bool)
    (hmax : maxr ≤ 0) :
    ∀ (e : Entry) (pth : String) (st : GrepSt),
      st.truncated = false →
      (grepDirVisit m maxr ignoreP sSearch e pth st).files_searched
        = st.files_searched
          + (if (totalsDirVisit m ignoreP sSearch e).files = 0 then 0 else 1) ∧
      ((grepDirVisit m maxr ignoreP sSearch e pth st).truncated = true
        ↔ (totalsDirVisit m ignoreP sSearch e).files ≠ 0) ∧
      (grepDirVisit m maxr ignoreP sSearch e pth st).files_matched = st.files_matched ∧
      (grepDirVisit m maxr ignoreP sSearch e pth st).lines_matched = st.lines_matched ∧
      (grepDirVisit m maxr ignoreP sSearch e pth st).matchList = st.matchList ∧
      (grepDirVisit m maxr ignoreP sSearch e pth st).gOpens = st.gOpens ∧
      (grepDirVisit m maxr ignoreP sSearch e pth st).gScanned = st.gScanned
  | .file nm rd lns, pth, st => by
    intro h0
    refine ⟨by simp [grepDirVisit, totalsDirVisit], ?_, rfl, rfl, rfl, rfl, rfl⟩
    simp [grepDirVisit, totalsDirVisit, h0]
  | .other nm, pth, st => by
    intro h0
    refine ⟨by simp [grepDirVisit, totalsDirVisit], ?_, rfl, rfl, rfl, rfl, rfl⟩
    simp [grepDirVisit, totalsDirVisit, h0]
  | .dir nm false cs, pth, st => by
    intro h0
    refine ⟨by simp [grepDirVisit, totalsDirVisit], ?_, rfl, rfl, rfl, rfl, rfl⟩
    simp [grepDirVisit, totalsDirVisit, h0]
  | .dir nm true cs, pth, st => by
    intro h0
    simp only [grepDirVisit, totalsDirVisit, grepFilesOf, totalsFiles]
    obtain ⟨p1, p2, p3, p4, p5, p6, p7⟩ := grepPass_cap0 m maxr (candFiles sSearch) pth hmax cs st h0
    by_cases hp : (totalsPass m (candFiles sSearch) cs).files = 0
    · have hpt : (grepPass m maxr (candFiles sSearch) pth cs st).truncated = false := by
        cases htr : (grepPass m maxr (candFiles sSearch) pth cs st).truncated
        · rfl
        · exact absurd (p2.mp htr) (by simp [hp])
      rw [if_neg (by simp [hpt])]
      obtain ⟨i1, i2, i3, i4, i5, i6, i7⟩ := grepSubdirs_cap0 m maxr ignoreP sSearch hmax cs pth
        (grepPass m maxr (candFiles sSearch) pth cs st) hpt
      refine ⟨?_, ?_, by omega, by omega, by rw [i5, p5], by omega, by omega⟩
      · rw [i1, p1]
        simp [hp, GrepTotals.add_files]
      · rw [i2]
        simp [hp, GrepTotals.add_files]
    · have hpt : (grepPass m maxr (candFiles sSearch) pth cs st).truncated = true :=
        p2.mpr hp
      rw [if_pos hpt]
      refine ⟨?_, ?_, p3, p4, p5, p6, p7⟩
      · rw [p1]
        simp [hp, GrepTotals.add_files]
      · simp [hpt, GrepTotals.add_files]
        omega

/-- With a non-positive result cap, the subdirectory descent attempts (at
most) its first candidate file and performs no open, no scan and no match;
the truncation flag rises exactly when some subtree holds a candidate. -/
theorem grepSubdirs_cap0 (m : Matcher) (maxr : Int) (ignoreP sSearch : String → Bool)
    (hmax : maxr ≤ 0) :
    ∀ (l : List Entry) (parent : String) (st : GrepSt),
      st.truncated = false →
      (grepSubdirs m maxr ignoreP sSearch l parent st).files_searched
        = st.files_searched
          + (if (totalsSubdirs m ignoreP sSearch l).files = 0 then 0 else 1) ∧
      ((grepSubdirs m maxr ignoreP sSearch l parent st).truncated = true
        ↔ (totalsSubdirs m ignoreP sSearch l).files ≠ 0) ∧
      (grepSubdirs m maxr ignoreP sSearch l parent st).files_matched = st.files_matched ∧
      (grepSubdirs m maxr ignoreP sSearch l parent st).lines_matched = st.lines_matched ∧
      (grepSubdirs m maxr ignoreP sSearch l parent st).matchList = st.matchList ∧
      (grepSubdirs m maxr ignoreP sSearch l parent st).gOpens = st.gOpens ∧
      (grepSubdirs m maxr ignoreP sSearch l parent st).gScanned = st.gScanned
  | [], parent, st => by
    intro h0
    refine ⟨by simp [grepSubdirs, totalsSubdirs], ?_, rfl, rfl, rfl, rfl, rfl⟩
    simp [grepSubdirs, totalsSubdirs, h0]
  | e :: rest, parent, st => by
    intro h0
    simp only [grepSubdirs, totalsSubdirs]
    by_cases hd : (e.isDir && !ignoreP e.name) = true
    · rw [if_pos hd]
      obtain ⟨v1, v2, v3, v4, v5, v6, v7⟩ := grepDirVisit_cap0 m maxr ignoreP sSearch hmax e
        (joinPath parent e.name) st h0
      by_cases hv : (totalsDirVisit m ignoreP sSearch e).files = 0
      · have hvt : (grepDirVisit m maxr ignoreP sSearch e (joinPath parent e.name) st).truncated
            = false := by
          cases htr : (grepDirVisit m maxr ignoreP sSearch e (joinPath parent e.name) st).truncated
          · rfl
          · exact absurd (v2.mp htr) (by simp [hv])
        rw [if_neg (by simp [hvt])]
        obtain ⟨i1, i2, i3, i4, i5, i6, i7⟩ := grepSubdirs_cap0 m maxr ignoreP sSearch hmax rest
          parent (grepDirVisit m maxr ignoreP sSearch e (joinPath parent e.name) st) hvt
        refine ⟨?_, ?_, by omega, by omega, by rw [i5, v5], by omega, by omega⟩
        · rw [i1, v1]
          simp [hd, hv]
        · rw [i2]
          simp [hd, hv]
      · have hvt : (grepDirVisit m maxr ignoreP sSearch e (joinPath parent e.name) st).truncated
            = true := v2.mpr hv
        rw [if_pos hvt]
        refine ⟨?_, ?_, v3, v4, v5, v6, v7⟩
        · rw [v1]
          simp [hd, hv]
        · simp [hd, hvt]
          omega
    · rw [if_neg hd]
      obtain ⟨i1, i2, i3, i4, i5, i6, i7⟩ := grepSubdirs_cap0 m maxr ignoreP sSearch hmax rest
        parent st h0
      refine ⟨?_, ?_, i3, i4, i5, i6, i7⟩
      · rw [i1]
        simp [hd]
      · rw [i2]
        simp [hd]
end

/-! ### Top-level characterisation of successful grep calls -/

/-- A successful `grep_tool` call is one of the four search shapes (file
root, recursive directory walk, non-recursive listing, or a special file
under `Path.walk`), and its payload is the projection of the final internal
state. -/
theorem grepRun_success_cases (rx : Option Matcher) (target : Option Entry) (p : String)
    (recursive : Bool) (fpats ig : List String) (maxr : Int) (ms : List SMatch)
    (stats : GrepStats)
    (h : grep_tool rx target p recursive fpats ig maxr = .success ms stats) :
    ∃ m t st, rx = some m ∧ target = some t ∧
      grepRunSt rx target p recursive fpats ig maxr = some st ∧
      ms = st.matchList ∧
      stats = ⟨st.files_searched, st.files_matched, st.lines_matched, st.truncated⟩ ∧
      ((∃ nm rd lns, t = .file nm rd lns ∧
          mkSearch (ig ++ GREP_DEFAULT_IGNORE) fpats nm = true ∧
          st = searchEntry m maxr p (.file nm rd lns) initGrepSt ∧
          grepTotals m t recursive fpats ig = fileTotals m (.file nm rd lns)) ∨
       (∃ nm rd cs, t = .dir nm rd cs ∧ recursive = true ∧
          st = grepDirVisit m maxr (mkIgnore (ig ++ GREP_DEFAULT_IGNORE))
            (mkSearch (ig ++ GREP_DEFAULT_IGNORE) fpats) (.dir nm rd cs) p initGrepSt ∧
          grepTotals m t recursive fpats ig
            = totalsDirVisit m (mkIgnore (ig ++ GREP_DEFAULT_IGNORE))
                (mkSearch (ig ++ GREP_DEFAULT_IGNORE) fpats) (.dir nm rd cs)) ∨
       (∃ nm cs, t = .dir nm true cs ∧ recursive = false ∧
          st = grepPass m maxr (candNonRec (mkSearch (ig ++ GREP_DEFAULT_IGNORE) fpats))
            p cs initGrepSt ∧
          grepTotals m t recursive fpats ig
            = totalsPass m (candNonRec (mkSearch (ig ++ GREP_DEFAULT_IGNORE) fpats)) cs) ∨
       (∃ nm, t = .other nm ∧ recursive = true ∧ st = initGrepSt ∧
          grepTotals m t recursive fpats ig = .zero)) := by
  cases habs : pathIsAbsolute p with
  | false => simp [grep_tool, grepRun, habs] at h
  | true =>
    rcases target with _ | t
    · simp [grep_tool, grepRun, habs] at h
    · rcases rx with _ | m
      · simp [grep_tool, grepRun, habs] at h
      · rcases t with ⟨nm, rd, lns⟩ | ⟨nm, rd, cs⟩ | nm
        · by_cases hs : mkSearch (ig ++ GREP_DEFAULT_IGNORE) fpats nm = true
          · simp only [grep_tool, grepRun, habs, hs, Bool.not_true, Bool.false_eq_true,
              eq_self_iff_true, if_false, if_true, mkGrepSuccess,
              GrepResult.success.injEq] at h
            obtain ⟨hms, hstats⟩ := h
            refine ⟨m, _, _, rfl, rfl, ?_, hms.symm, ?_, Or.inl ⟨nm, rd, lns, rfl, hs, rfl, ?_⟩⟩
            · simp [grepRunSt, grepRun, habs, hs]
            · rcases stats with ⟨a, b, c, d⟩
              simp at hstats
              simp [hstats]
            · simp [grepTotals, hs]
          · simp [grep_tool, grepRun, habs, hs] at h
        · cases recursive with
          | true =>
            simp only [grep_tool, grepRun, habs, Bool.not_true, Bool.false_eq_true,
              eq_self_iff_true, if_false, if_true, mkGrepSuccess,
              GrepResult.success.injEq] at h
            obtain ⟨hms, hstats⟩ := h
            refine ⟨m, _, _, rfl, rfl, ?_, hms.symm, ?_,
              Or.inr (Or.inl ⟨nm, rd, cs, rfl, rfl, rfl, ?_⟩)⟩
            · simp [grepRunSt, grepRun, habs]
            · rcases stats with ⟨a, b, c, d⟩
              simp at hstats
              simp [hstats]
            · simp [grepTotals]
          | false =>
            cases rd with
            | false => simp [grep_tool, grepRun, habs] at h
            | true =>
              simp only [grep_tool, grepRun, habs, Bool.not_true, Bool.false_eq_true,
                eq_self_iff_true, if_false, if_true, grepNonRec, mkGrepSuccess,
                GrepResult.success.injEq] at h
              obtain ⟨hms, hstats⟩ := h
              refine ⟨m, _, _, rfl, rfl, ?_, hms.symm, ?_,
                Or.inr (Or.inr (Or.inl ⟨nm, cs, rfl, rfl, rfl, ?_⟩))⟩
              · simp [grepRunSt, grepRun, habs, grepNonRec]
              · rcases stats with ⟨a, b, c, d⟩
                simp at hstats
                simp [hstats]
              · simp [grepTotals, totalsNonRec]
        · cases recursive with
          | true =>
            simp only [grep_tool, grepRun, habs, Bool.not_true, Bool.false_eq_true,
              eq_self_iff_true, if_false, if_true, mkGrepSuccess,
              GrepResult.success.injEq] at h
            obtain ⟨hms, hstats⟩ := h
            refine ⟨m, _, _, rfl, rfl, ?_, hms.symm, ?_,
              Or.inr (Or.inr (Or.inr ⟨nm, rfl, rfl, rfl, ?_⟩))⟩
            · simp [grepRunSt, grepRun, habs]
            · rcases stats with ⟨a, b, c, d⟩
              simp at hstats
              simp [hstats]
            · simp [grepTotals]
          | false => simp [grep_tool, grepRun, habs] at h

/-! ### Claim C1 — result cap and truncation flag -/

/-- C1 as stated is false on the code: `max_results` is an `int` and may be
negative, in which case the (empty) matches list is longer than
`max_results` allows — here a successful call with `max_results = -1`
returns `len(matches) = 0 > -1`. -/
theorem c1_result_cap_counterexample :
    ∃ ms stats,
      grep_tool (some (substrMatcher "a")) (some (.file "f.txt" true ["abc\n"]))
          "/f.txt" true [] [] (-1)
        = .success ms stats ∧
      ¬ ((ms.length : Int) ≤ -1) :=
  ⟨[], ⟨1, 0, 0, true⟩, by decide, by decide⟩

/-- C1 amended: for every successful `grep_tool` call,
`len(matches) ≤ max(max_results, 0)` (equality with the claim's bound
whenever `max_results ≥ 0`), and `stats.results_truncated` is true exactly
when the traversal skipped part of its candidate work — some candidate
file's open, or some line scan, was not performed (`gOpens`/`gScanned` are
the instrumentation counters of the final state; `grepTotals` is the full
reference workload). -/
theorem c1_result_cap (rx : Option Matcher) (target : Option Entry) (p : String)
    (recursive : Bool) (fpats ig : List String) (maxr : Int) (ms : List SMatch)
    (stats : GrepStats)
    (h : grep_tool rx target p recursive fpats ig maxr = .success ms stats) :
    ms.length ≤ maxr.toNat ∧
    ∃ m t st, rx = some m ∧ target = some t ∧
      grepRunSt rx target p recursive fpats ig maxr = some st ∧
      stats.results_truncated = st.truncated ∧
      (stats.results_truncated = true ↔
        ¬ (st.gOpens = (grepTotals m t recursive fpats ig).files ∧
           st.gScanned = (grepTotals m t recursive fpats ig).scanned)) := by
  obtain ⟨m, t, st, hrx, ht, hrun, hms, hstats, hcases⟩ :=
    grepRun_success_cases rx target p recursive fpats ig maxr ms stats h
  subst hms
  subst hstats
  refine ⟨?_, m, t, st, hrx, ht, hrun, rfl, ?_⟩
  · -- the match list never exceeds max(max_results, 0)
    have hlen : (st.matchList.length : Int) ≤ max maxr 0 := by
      rcases hcases with ⟨nm, rd, lns, hte, hs, hst, htot⟩ |
        ⟨nm, rd, cs, hte, hrec, hst, htot⟩ | ⟨nm, cs, hte, hrec, hst, htot⟩ |
        ⟨nm, hte, hrec, hst, htot⟩
      · rw [hst]
        exact (searchEntry_facts m maxr p (.file nm rd lns) initGrepSt).2.2.2.2.2 (by simp [initGrepSt])
      · rw [hst]
        exact (grepDirVisit_facts m maxr (mkIgnore (ig ++ GREP_DEFAULT_IGNORE))
          (mkSearch (ig ++ GREP_DEFAULT_IGNORE) fpats) (.dir nm rd cs) p initGrepSt).2.2.2.2.1
          (by simp [initGrepSt])
      · rw [hst]
        exact (grepPass_facts m maxr (candNonRec (mkSearch (ig ++ GREP_DEFAULT_IGNORE) fpats))
          p cs initGrepSt).2.2.2.2.1 (by simp [initGrepSt])
      · rw [hst]
        simp [initGrepSt]
    rw [le_max_iff] at hlen
    omega
  · -- the truncation flag is exact
    show st.truncated = true ↔ _
    rcases hcases with ⟨nm, rd, lns, hte, hs, hst, htot⟩ |
      ⟨nm, rd, cs, hte, hrec, hst, htot⟩ | ⟨nm, cs, hte, hrec, hst, htot⟩ |
      ⟨nm, hte, hrec, hst, htot⟩
    · rw [htot]
      cases httr : st.truncated with
      | false =>
        obtain ⟨_, _, _, _, e4, e5, _⟩ := searchEntry_not_trunc m maxr p (.file nm rd lns)
          initGrepSt (by rw [← hst]; exact httr)
        rw [← hst] at e4 e5
        simp only [initGrepSt] at e4 e5
        simp only [Bool.false_eq_true, false_iff, not_not]
        exact ⟨by omega, by omega⟩
      | true =>
        simp only [true_iff]
        rintro ⟨hA, hB⟩
        rcases searchEntry_onset m maxr p (.file nm rd lns) initGrepSt rfl
          (by rw [← hst]; exact httr) with hlt | hlt <;>
          rw [← hst] at hlt <;> simp only [initGrepSt] at hlt <;> omega
    · rw [htot]
      cases httr : st.truncated with
      | false =>
        obtain ⟨_, _, _, _, e4, e5, _⟩ := grepDirVisit_not_trunc m maxr
          (mkIgnore (ig ++ GREP_DEFAULT_IGNORE)) (mkSearch (ig ++ GREP_DEFAULT_IGNORE) fpats)
          (.dir nm rd cs) p initGrepSt (by rw [← hst]; exact httr)
        rw [← hst] at e4 e5
        simp only [initGrepSt] at e4 e5
        simp only [Bool.false_eq_true, false_iff, not_not]
        exact ⟨by omega, by omega⟩
      | true =>
        simp only [true_iff]
        rintro ⟨hA, hB⟩
        rcases grepDirVisit_onset m maxr (mkIgnore (ig ++ GREP_DEFAULT_IGNORE))
          (mkSearch (ig ++ GREP_DEFAULT_IGNORE) fpats) (.dir nm rd cs) p initGrepSt rfl
          (by rw [← hst]; exact httr) with hlt | hlt <;>
          rw [← hst] at hlt <;> simp only [initGrepSt] at hlt <;> omega
    · rw [htot]
      cases httr : st.truncated with
      | false =>
        obtain ⟨_, _, _, _, e4, e5, _⟩ := grepPass_not_trunc m maxr
          (candNonRec (mkSearch (ig ++ GREP_DEFAULT_IGNORE) fpats)) p cs initGrepSt
          (by rw [← hst]; exact httr)
        rw [← hst] at e4 e5
        simp only [initGrepSt] at e4 e5
        simp only [Bool.false_eq_true, false_iff, not_not]
        exact ⟨by omega, by omega⟩
      | true =>
        simp only [true_iff]
        rintro ⟨hA, hB⟩
        rcases grepPass_onset m maxr (candNonRec (mkSearch (ig ++ GREP_DEFAULT_IGNORE) fpats))
          p cs initGrepSt rfl (by rw [← hst]; exact httr) with hlt | hlt <;>
          rw [← hst] at hlt <;> simp only [initGrepSt] at hlt <;> omega
    · rw [htot, hst]
      simp [initGrepSt]

/-- Witness for the amended C1 at a concrete input. -/
theorem c1_result_cap_witness :
    ∃ ms stats,
      grep_tool (some (substrMatcher "foo")) (some (.file "a.txt" true ["foo bar\n"]))
          "/a.txt" true [] [] 1000
        = .success ms stats ∧
      ms.length ≤ (1000 : Int).toNat :=
  ⟨_, _, rfl,
   (c1_result_cap (some (substrMatcher "foo")) (some (.file "a.txt" true ["foo bar\n"]))
      "/a.txt" true [] [] 1000 _ _ rfl).1⟩

/-! ### Claim C5 — counting discipline -/

/-- C5 as stated is false on the code: once the scan truncates, a file
containing a matching line can go uncounted.  With `max_results = 1` and two
files each containing a matching line (the reference count `fmatched` is 2),
the returned `files_matched` is 1. -/
theorem c5_counting_counterexample :
    ∃ ms stats,
      grep_tool (some (substrMatcher "x"))
          (some (.dir "r" true [.file "a.txt" true ["x\n"], .file "b.txt" true ["x\n"]]))
          "/r" true [] [] 1
        = .success ms stats ∧
      (grepTotals (substrMatcher "x")
          (.dir "r" true [.file "a.txt" true ["x\n"], .file "b.txt" true ["x\n"]])
          true [] []).fmatched = 2 ∧
      stats.files_matched ≠ 2 :=
  ⟨[mkMatchRec "/r/a.txt" 1 "x\n" 0 1], ⟨2, 1, 1, true⟩, by decide, by decide, by decide⟩

/-- C5 amended: for every successful `grep_tool` call,
`stats.files_matched ≤ stats.files_searched`; moreover when the scan was not
truncated, `files_searched` equals the number of candidate files attempted
(unreadable ones included), `files_matched` the number of candidate files
with at least one matching line, and `lines_matched` the total number of
matching lines — the claim's per-file/per-line counting discipline, which
under truncation holds only for the scanned part. -/
theorem c5_counting (rx : Option Matcher) (target : Option Entry) (p : String)
    (recursive : Bool) (fpats ig : List String) (maxr : Int) (ms : List SMatch)
    (stats : GrepStats)
    (h : grep_tool rx target p recursive fpats ig maxr = .success ms stats) :
    stats.files_matched ≤ stats.files_searched ∧
    ∃ m t, rx = some m ∧ target = some t ∧
      (stats.results_truncated = false →
        stats.files_searched = (grepTotals m t recursive fpats ig).files ∧
        stats.files_matched = (grepTotals m t recursive fpats ig).fmatched ∧
        stats.lines_matched = (grepTotals m t recursive fpats ig).lmatched) := by
  obtain ⟨m, t, st, hrx, ht, hrun, hms, hstats, hcases⟩ :=
    grepRun_success_cases rx target p recursive fpats ig maxr ms stats h
  subst hms
  subst hstats
  refine ⟨?_, m, t, hrx, ht, ?_⟩
  · -- files_matched ≤ files_searched
    show st.files_matched ≤ st.files_searched
    rcases hcases with ⟨nm, rd, lns, hte, hs, hst, htot⟩ |
      ⟨nm, rd, cs, hte, hrec, hst, htot⟩ | ⟨nm, cs, hte, hrec, hst, htot⟩ |
      ⟨nm, hte, hrec, hst, htot⟩
    · obtain ⟨_, s2, s3, _⟩ := searchEntry_facts m maxr p (.file nm rd lns) initGrepSt
      rw [← hst] at s2 s3
      simp [initGrepSt] at s2 s3
      omega
    · rw [hst]
      exact (grepDirVisit_facts m maxr (mkIgnore (ig ++ GREP_DEFAULT_IGNORE))
        (mkSearch (ig ++ GREP_DEFAULT_IGNORE) fpats) (.dir nm rd cs) p initGrepSt).2.2.2.2.2
        (by simp [initGrepSt])
    · rw [hst]
      exact (grepPass_facts m maxr (candNonRec (mkSearch (ig ++ GREP_DEFAULT_IGNORE) fpats))
        p cs initGrepSt).2.2.2.2.2 (by simp [initGrepSt])
    · rw [hst]
      simp [initGrepSt]
  · -- exact counts without truncation
    show st.truncated = false → _
    intro httr
    rcases hcases with ⟨nm, rd, lns, hte, hs, hst, htot⟩ |
      ⟨nm, rd, cs, hte, hrec, hst, htot⟩ | ⟨nm, cs, hte, hrec, hst, htot⟩ |
      ⟨nm, hte, hrec, hst, htot⟩
    · rw [htot]
      obtain ⟨_, e1, e2, e3, _⟩ := searchEntry_not_trunc m maxr p (.file nm rd lns)
        initGrepSt (by rw [← hst]; exact httr)
      rw [← hst] at e1 e2 e3
      simp [initGrepSt] at e1 e2 e3
      refine ⟨?_, ?_, ?_⟩
      · show st.files_searched = _
        omega
      · show st.files_matched = _
        omega
      · show st.lines_matched = _
        omega
    · rw [htot]
      obtain ⟨_, e1, e2, e3, _⟩ := grepDirVisit_not_trunc m maxr
        (mkIgnore (ig ++ GREP_DEFAULT_IGNORE)) (mkSearch (ig ++ GREP_DEFAULT_IGNORE) fpats)
        (.dir nm rd cs) p initGrepSt (by rw [← hst]; exact httr)
      rw [← hst] at e1 e2 e3
      simp [initGrepSt] at e1 e2 e3
      refine ⟨?_, ?_, ?_⟩
      · show st.files_searched = _
        omega
      · show st.files_matched = _
        omega
      · show st.lines_matched = _
        omega
    · rw [htot]
      obtain ⟨_, e1, e2, e3, _⟩ := grepPass_not_trunc m maxr
        (candNonRec (mkSearch (ig ++ GREP_DEFAULT_IGNORE) fpats)) p cs initGrepSt
        (by rw [← hst]; exact httr)
      rw [← hst] at e1 e2 e3
      simp [initGrepSt] at e1 e2 e3
      refine ⟨?_, ?_, ?_⟩
      · show st.files_searched = _
        omega
      · show st.files_matched = _
        omega
      · show st.lines_matched = _
        omega
    · rw [htot]
      refine ⟨?_, ?_, ?_⟩
      · show st.files_searched = _
        rw [hst]
        simp [initGrepSt]
      · show st.files_matched = _
        rw [hst]
        simp [initGrepSt]
      · show st.lines_matched = _
        rw [hst]
        simp [initGrepSt]

/-- Witness for the amended C5 at a concrete input. -/
theorem c5_counting_witness :
    ∃ ms stats,
      grep_tool (some (substrMatcher "x"))
          (some (.dir "r" true [.file "a.txt" true ["ax\n", "b\n"], .file "c.txt" false []]))
          "/r" true [] [] 1000
        = .success ms stats ∧
      stats.files_matched ≤ stats.files_searched :=
  ⟨_, _, rfl,
   (c5_counting (some (substrMatcher "x"))
      (some (.dir "r" true [.file "a.txt" true ["ax\n", "b\n"], .file "c.txt" false []]))
      "/r" true [] [] 1000 _ _ rfl).1⟩

/-! ### Claim C10 — `max_results = 0` -/

/-- C10: a `grep_tool` call with `max_results = 0` on a valid absolute
existing path whose traversal holds at least one candidate file (the
reference count of candidate files is non-zero) returns success with an
empty matches list, `results_truncated = true`, `files_searched ≥ 1` (in
fact exactly 1) and `files_matched = 0`, and no file content is ever read:
the final state records zero attempted opens and zero scanned lines. -/
theorem c10_max_results_zero (m : Matcher) (t : Entry) (p : String) (recursive : Bool)
    (fpats ig : List String)
    (habs : pathIsAbsolute p = true)
    (hc : (grepTotals m t recursive fpats ig).files ≠ 0) :
    ∃ ms stats, grep_tool (some m) (some t) p recursive fpats ig 0 = .success ms stats ∧
      ms = [] ∧ stats.results_truncated = true ∧ 1 ≤ stats.files_searched ∧
      stats.files_matched = 0 ∧ stats.lines_matched = 0 ∧
      ∃ st, grepRunSt (some m) (some t) p recursive fpats ig 0 = some st ∧
        st.gOpens = 0 ∧ st.gScanned = 0 := by
  rcases t with ⟨nm, rd, lns⟩ | ⟨nm, rd, cs⟩ | nm
  · by_cases hs : mkSearch (ig ++ GREP_DEFAULT_IGNORE) fpats nm = true
    · have hse := searchEntry_cap0 m 0 p (.file nm rd lns) initGrepSt (by omega)
      have hse2 : searchEntry m 0 p (.file nm rd lns) initGrepSt =
          { files_searched := 1, files_matched := 0, lines_matched := 0,
            truncated := true, matchList := [], gOpens := 0, gScanned := 0 } := by
        rw [hse]; rfl
      refine ⟨[], ⟨1, 0, 0, true⟩, ?_, rfl, rfl, by decide, rfl, rfl,
        searchEntry m 0 p (.file nm rd lns) initGrepSt, ?_, ?_, ?_⟩
      · simp [grep_tool, grepRun, habs, hs, mkGrepSuccess, hse2]
      · simp [grepRunSt, grepRun, habs, hs]
      · rw [hse2]
      · rw [hse2]
    · exact absurd hc (by simp [grepTotals, hs])
  · cases recursive with
    | true =>
      obtain ⟨v1, v2, v3, v4, v5, v6, v7⟩ := grepDirVisit_cap0 m 0
        (mkIgnore (ig ++ GREP_DEFAULT_IGNORE)) (mkSearch (ig ++ GREP_DEFAULT_IGNORE) fpats)
        (by omega) (.dir nm rd cs) p initGrepSt rfl
      have hc2 : (totalsDirVisit m (mkIgnore (ig ++ GREP_DEFAULT_IGNORE))
          (mkSearch (ig ++ GREP_DEFAULT_IGNORE) fpats) (.dir nm rd cs)).files ≠ 0 := by
        simpa [grepTotals] using hc
      refine ⟨(grepDirVisit m 0 (mkIgnore (ig ++ GREP_DEFAULT_IGNORE)) (mkSearch (ig ++ GREP_DEFAULT_IGNORE) fpats) (.dir nm rd cs) p initGrepSt).matchList,
        ⟨(grepDirVisit m 0 (mkIgnore (ig ++ GREP_DEFAULT_IGNORE)) (mkSearch (ig ++ GREP_DEFAULT_IGNORE) fpats) (.dir nm rd cs) p initGrepSt).files_searched,
         (grepDirVisit m 0 (mkIgnore (ig ++ GREP_DEFAULT_IGNORE)) (mkSearch (ig ++ GREP_DEFAULT_IGNORE) fpats) (.dir nm rd cs) p initGrepSt).files_matched,
         (grepDirVisit m 0 (mkIgnore (ig ++ GREP_DEFAULT_IGNORE)) (mkSearch (ig ++ GREP_DEFAULT_IGNORE) fpats) (.dir nm rd cs) p initGrepSt).lines_matched,
         (grepDirVisit m 0 (mkIgnore (ig ++ GREP_DEFAULT_IGNORE)) (mkSearch (ig ++ GREP_DEFAULT_IGNORE) fpats) (.dir nm rd cs) p initGrepSt).truncated⟩,
        ?_, ?_, ?_, ?_, ?_, ?_,
        grepDirVisit m 0 (mkIgnore (ig ++ GREP_DEFAULT_IGNORE)) (mkSearch (ig ++ GREP_DEFAULT_IGNORE) fpats) (.dir nm rd cs) p initGrepSt, ?_, ?_, ?_⟩
      · simp [grep_tool, grepRun, habs, mkGrepSuccess]
      · exact v5.trans rfl
      · exact v2.mpr hc2
      · rw [v1]
        simp [initGrepSt, hc2]
      · exact v3.trans rfl
      · exact v4.trans rfl
      · simp [grepRunSt, grepRun, habs]
      · exact v6.trans rfl
      · exact v7.trans rfl
    | false =>
      cases rd with
      | false => exact absurd hc (by simp [grepTotals])
      | true =>
        obtain ⟨v1, v2, v3, v4, v5, v6, v7⟩ := grepPass_cap0 m 0
          (candNonRec (mkSearch (ig ++ GREP_DEFAULT_IGNORE) fpats)) p (by omega) cs
          initGrepSt rfl
        have hc2 : (totalsPass m (candNonRec (mkSearch (ig ++ GREP_DEFAULT_IGNORE) fpats))
            cs).files ≠ 0 := by
          simpa [grepTotals, totalsNonRec] using hc
        refine ⟨(grepPass m 0 (candNonRec (mkSearch (ig ++ GREP_DEFAULT_IGNORE) fpats)) p cs initGrepSt).matchList,
          ⟨(grepPass m 0 (candNonRec (mkSearch (ig ++ GREP_DEFAULT_IGNORE) fpats)) p cs initGrepSt).files_searched,
           (grepPass m 0 (candNonRec (mkSearch (ig ++ GREP_DEFAULT_IGNORE) fpats)) p cs initGrepSt).files_matched,
           (grepPass m 0 (candNonRec (mkSearch (ig ++ GREP_DEFAULT_IGNORE) fpats)) p cs initGrepSt).lines_matched,
           (grepPass m 0 (candNonRec (mkSearch (ig ++ GREP_DEFAULT_IGNORE) fpats)) p cs initGrepSt).truncated⟩,
          ?_, ?_, ?_, ?_, ?_, ?_,
          grepPass m 0 (candNonRec (mkSearch (ig ++ GREP_DEFAULT_IGNORE) fpats)) p cs initGrepSt, ?_, ?_, ?_⟩
        · simp [grep_tool, grepRun, grepNonRec, habs, mkGrepSuccess]
        · exact v5.trans rfl
        · exact v2.mpr hc2
        · rw [v1]
          simp [initGrepSt, hc2]
        · exact v3.trans rfl
        · exact v4.trans rfl
        · simp [grepRunSt, grepRun, grepNonRec, habs]
        · exact v6.trans rfl
        · exact v7.trans rfl
  · exact absurd hc (by simp [grepTotals])

/-- Witness for C10 at a concrete input. -/
theorem c10_max_results_zero_witness :
    (pathIsAbsolute "/r" = true ∧
      (grepTotals (substrMatcher "x") (.dir "r" true [.file "a.txt" true ["x\n"]])
        true [] []).files ≠ 0) ∧
    (∃ ms stats,
      grep_tool (some (substrMatcher "x")) (some (.dir "r" true [.file "a.txt" true ["x\n"]]))
          "/r" true [] [] 0 = .success ms stats ∧
      ms = [] ∧ stats.results_truncated = true ∧ 1 ≤ stats.files_searched ∧
      stats.files_matched = 0 ∧ stats.lines_matched = 0 ∧
      ∃ st, grepRunSt (some (substrMatcher "x"))
          (some (.dir "r" true [.file "a.txt" true ["x\n"]])) "/r" true [] [] 0 = some st ∧
        st.gOpens = 0 ∧ st.gScanned = 0) :=
  ⟨⟨by decide, by decide⟩,
   c10_max_results_zero (substrMatcher "x") (.dir "r" true [.file "a.txt" true ["x\n"]])
     "/r" true [] [] (by decide) (by decide)⟩

/-! ### Context windows of the match records (C9) -/

/-- The context triple of a match record equals the 10-character windows and
the match slice taken from the record's own `content` field (the rstripped
line) — exactly the slices `search_file` computes. -/
def ctxOk (r : SMatch) : Bool :=
  r.ctxBefore == pySlice r.content (r.match_start - 10) r.match_start &&
  r.ctxMatch == pySlice r.content r.match_start r.match_end &&
  r.ctxAfter == pySlice r.content r.match_end (min r.content.length (r.match_end + 10))

/-- Every record `search_file` builds satisfies `ctxOk` by construction. -/
theorem ctxOk_mkMatchRec (fpath : String) (ln : Nat) (line : String) (ms me : Nat) :
    ctxOk (mkMatchRec fpath ln line ms me) = true := by
  simp [ctxOk, mkMatchRec]

/-- A Python slice never holds more than `b - a` characters. -/
theorem pySlice_length_le (s : String) (a b : Nat) : (pySlice s a b).length ≤ b - a := by
  show (((s.toList).drop a).take (b - a)).length ≤ b - a
  rw [List.length_take]
  exact min_le_left _ _

/-- The line scan only ever appends `ctxOk` records. -/
theorem scanLines_ctxOk (m : Matcher) (maxr : Int) (fpath : String) :
    ∀ (lines : List String) (ln : Nat) (fm : Bool) (st : GrepSt),
      (∀ r ∈ st.matchList, ctxOk r = true) →
      ∀ r ∈ (scanLines m maxr fpath lines ln fm st).matchList, ctxOk r = true
  | [], ln, fm, st => fun h => by simpa [scanLines] using h
  | line :: rest, ln, fm, st => by
    intro h
    rw [scanLines_cons]
    by_cases hcap : ((st.matchList.length : Int) ≥ maxr)
    · rw [if_pos hcap]
      exact h
    · rw [if_neg hcap]
      rcases hml : m line with _ | ⟨ms, me⟩
      · exact scanLines_ctxOk m maxr fpath rest (ln + 1) fm _ h
      · refine scanLines_ctxOk m maxr fpath rest (ln + 1) true _ ?_
        intro r hr
        rcases List.mem_append.mp hr with h1 | h1
        · exact h r h1
        · rw [List.mem_singleton.mp h1]
          exact ctxOk_mkMatchRec fpath ln line ms me

/-- `search_file` only ever appends `ctxOk` records. -/
theorem searchEntry_ctxOk (m : Matcher) (maxr : Int) (fpath : String) (e : Entry) (st : GrepSt)
    (h : ∀ r ∈ st.matchList, ctxOk r = true) :
    ∀ r ∈ (searchEntry m maxr fpath e st).matchList, ctxOk r = true := by
  rw [searchEntry_eq]
  by_cases hcap : ((st.matchList.length : Int) ≥ maxr)
  · rw [if_pos hcap]
    exact h
  · rw [if_neg hcap]
    rcases e with ⟨nm, rd, lns⟩ | ⟨nm, rd, cs⟩ | nm
    · cases rd with
      | false => exact h
      | true => exact scanLines_ctxOk m maxr fpath lns 1 false _ h
    · exact h
    · exact h

/-- A filtered file pass only ever appends `ctxOk` records. -/
theorem grepPass_ctxOk (m : Matcher) (maxr : Int) (cand : Entry → Bool) (parent : String) :
    ∀ (l : List Entry) (st : GrepSt),
      (∀ r ∈ st.matchList, ctxOk r = true) →
      ∀ r ∈ (grepPass m maxr cand parent l st).matchList, ctxOk r = true
  | [], st => fun h => by simpa [grepPass] using h
  | e :: rest, st => by
    intro h
    simp only [grepPass]
    cases hc : cand e with
    | false =>
      simp only [Bool.false_eq_true, if_false]
      by_cases ht : st.truncated = true
      · rw [if_pos ht]
        exact h
      · rw [if_neg ht]
        exact grepPass_ctxOk m maxr cand parent rest st h
    | true =>
      simp only [eq_self_iff_true, if_true]
      have h1 := searchEntry_ctxOk m maxr (joinPath parent e.name) e st h
      by_cases ht : (searchEntry m maxr (joinPath parent e.name) e st).truncated = true
      · rw [if_pos ht]
        exact h1
      · rw [if_neg ht]
        exact grepPass_ctxOk m maxr cand parent rest _ h1

mutual
/-- The walk below one directory only ever appends `ctxOk` records. -/
theorem grepDirVisit_ctxOk (m : Matcher) (maxr : Int) (ignoreP sSearch : String → Bool) :
    ∀ (e : Entry) (pth : String) (st : GrepSt),
      (∀ r ∈ st.matchList, ctxOk r = true) →
      ∀ r ∈ (grepDirVisit m maxr ignoreP sSearch e pth st).matchList, ctxOk r = true
  | .file nm rd lns, pth, st => fun h => by simpa [grepDirVisit] using h
  | .other nm, pth, st => fun h => by simpa [grepDirVisit] using h
  | .dir nm false cs, pth, st => fun h => by simpa [grepDirVisit] using h
  | .dir nm true cs, pth, st => by
    intro h
    simp only [grepDirVisit, grepFilesOf]
    have h1 := grepPass_ctxOk m maxr (candFiles sSearch) pth cs st h
    by_cases ht : (grepPass m maxr (candFiles sSearch) pth cs st).truncated = true
    · rw [if_pos ht]
      exact h1
    · rw [if_neg ht]
      exact grepSubdirs_ctxOk m maxr ignoreP sSearch cs pth _ h1

/-- The descent into the subdirectories only ever appends `ctxOk` records. -/
theorem grepSubdirs_ctxOk (m : Matcher) (maxr : Int) (ignoreP sSearch : String → Bool) :
    ∀ (l : List Entry) (parent : String) (st : GrepSt),
      (∀ r ∈ st.matchList, ctxOk r = true) →
      ∀ r ∈ (grepSubdirs m maxr ignoreP sSearch l parent st).matchList, ctxOk r = true
  | [], parent, st => fun h => by simpa [grepSubdirs] using h
  | e :: rest, parent, st => by
    intro h
    simp only [grepSubdirs]
    cases hd : (e.isDir && !ignoreP e.name) with
    | false =>
      simp only [Bool.false_eq_true, if_false]
      exact grepSubdirs_ctxOk m maxr ignoreP sSearch rest parent st h
    | true =>
      simp only [eq_self_iff_true, if_true]
      have h1 := grepDirVisit_ctxOk m maxr ignoreP sSearch e (joinPath parent e.name) st h
      by_cases ht : (grepDirVisit m maxr ignoreP sSearch e (joinPath parent e.name) st).truncated
          = true
      · rw [if_pos ht]
        exact h1
      · rw [if_neg ht]
        exact grepSubdirs_ctxOk m maxr ignoreP sSearch rest parent _ h1
end

/-- C9: corrected form.  The claim reads the context windows against "the
line"; the code computes them against the **rstripped** line content.  For
every match record of a successful `grep_tool` call, `context.prefix` is the
(at most 10 character) slice of the record's `content` ending at the match
start, `context.match` is the slice `content[match_start:match_end]` (which
is the matched substring only when the regex match does not extend past the
rstripped content, see the counterexample), and `context.suffix` is the (at
most 10 character) slice starting at the match end, clipped to the content
length. -/
theorem c9_context_windows (rx : Option Matcher) (target : Option Entry) (p : String)
    (recursive : Bool) (fpats ig : List String) (maxr : Int) (ms : List SMatch)
    (stats : GrepStats)
    (h : grep_tool rx target p recursive fpats ig maxr = .success ms stats) :
    ∀ r ∈ ms,
      r.ctxBefore = pySlice r.content (r.match_start - 10) r.match_start ∧
      r.ctxMatch = pySlice r.content r.match_start r.match_end ∧
      r.ctxAfter = pySlice r.content r.match_end (min r.content.length (r.match_end + 10)) ∧
      r.ctxBefore.length ≤ 10 ∧ r.ctxAfter.length ≤ 10 := by
  obtain ⟨m, t, st, hrx, ht, hst, hms, hstats, hcases⟩ :=
    grepRun_success_cases rx target p recursive fpats ig maxr ms stats h
  subst hms
  have hinit : ∀ r ∈ initGrepSt.matchList, ctxOk r = true := by
    simp [initGrepSt]
  have hall : ∀ r ∈ st.matchList, ctxOk r = true := by
    rcases hcases with ⟨nm, rd, lns, hteq, hs, hsteq, _⟩ | ⟨nm, rd, cs, hteq, hrec, hsteq, _⟩ |
      ⟨nm, cs, hteq, hrec, hsteq, _⟩ | ⟨nm, hteq, hrec, hsteq, _⟩
    · rw [hsteq]
      exact searchEntry_ctxOk m maxr p _ initGrepSt hinit
    · rw [hsteq]
      exact grepDirVisit_ctxOk m maxr _ _ _ p initGrepSt hinit
    · rw [hsteq]
      exact grepPass_ctxOk m maxr _ p cs initGrepSt hinit
    · rw [hsteq]
      exact hinit
  intro r hr
  have hc := hall r hr
  simp only [ctxOk, Bool.and_eq_true, beq_iff_eq] at hc
  obtain ⟨⟨h1, h2⟩, h3⟩ := hc
  refine ⟨h1, h2, h3, ?_, ?_⟩
  · rw [h1]
    have := pySlice_length_le r.content (r.match_start - 10) r.match_start
    omega
  · rw [h3]
    have := pySlice_length_le r.content r.match_end (min r.content.length (r.match_end + 10))
    omega

/-- C9 counterexample: the regex runs on the **raw** line (with its trailing
newline) while the record and its context windows are built from the
rstripped content, so a match whose span reaches into the trailing newline
yields `context.match` strictly shorter than — and different from — the
matched substring of the line. -/
theorem c9_context_counterexample :
    grep_tool (some (substrMatcher "r\n")) (some (.file "b.txt" true ["bar\n"]))
        "/b.txt" false [] [] 10
      = .success [mkMatchRec "/b.txt" 1 "bar\n" 2 4] ⟨1, 1, 1, false⟩ ∧
    (mkMatchRec "/b.txt" 1 "bar\n" 2 4).ctxMatch = "r" ∧
    pySlice "bar\n" 2 4 = "r\n" ∧
    (mkMatchRec "/b.txt" 1 "bar\n" 2 4).ctxMatch ≠ pySlice "bar\n" 2 4 := by
  decide

/-- Witness for C9 at a concrete input. -/
theorem c9_context_windows_witness :
    (mkMatchRec "/a.txt" 1 "foo\n" 1 2).ctxBefore
        = pySlice (mkMatchRec "/a.txt" 1 "foo\n" 1 2).content
            ((mkMatchRec "/a.txt" 1 "foo\n" 1 2).match_start - 10)
            (mkMatchRec "/a.txt" 1 "foo\n" 1 2).match_start ∧
    (mkMatchRec "/a.txt" 1 "foo\n" 1 2).ctxMatch
        = pySlice (mkMatchRec "/a.txt" 1 "foo\n" 1 2).content
            (mkMatchRec "/a.txt" 1 "foo\n" 1 2).match_start
            (mkMatchRec "/a.txt" 1 "foo\n" 1 2).match_end ∧
    (mkMatchRec "/a.txt" 1 "foo\n" 1 2).ctxAfter
        = pySlice (mkMatchRec "/a.txt" 1 "foo\n" 1 2).content
            (mkMatchRec "/a.txt" 1 "foo\n" 1 2).match_end
            (min (mkMatchRec "/a.txt" 1 "foo\n" 1 2).content.length
              ((mkMatchRec "/a.txt" 1 "foo\n" 1 2).match_end + 10)) ∧
    (mkMatchRec "/a.txt" 1 "foo\n" 1 2).ctxBefore.length ≤ 10 ∧
    (mkMatchRec "/a.txt" 1 "foo\n" 1 2).ctxAfter.length ≤ 10 :=
  c9_context_windows (some (substrMatcher "o")) (some (.file "a.txt" true ["foo\n"]))
    "/a.txt" false [] [] 10 [mkMatchRec "/a.txt" 1 "foo\n" 1 2] ⟨1, 1, 1, false⟩
    (by decide) (mkMatchRec "/a.txt" 1 "foo\n" 1 2) (List.mem_singleton.mpr rfl)
